import Mathlib

/-!
Verification of the transaction-processor core: a shallow embedding of
`src/datatypes.rs` (Transaction, Client, RingBuffer) and
`src/main.rs` (`process_transaction`, argument handling), with theorems
settling the specification claims.

Modelling conventions:
* `u16`/`u32` identifiers become `Nat` (no claim involves wraparound);
* `f64` amounts become `Rat`: the exact arithmetic the spec refers to
  ("within floating tolerance before final rounding");
* `HashMap` becomes an association list with first-match lookup,
  overwrite-on-insert and erase-first-on-remove (keys are unique in every
  map the program builds);
* `VecDeque` in `RingBuffer` becomes a list whose head is the oldest
  element; `with_capacity` is taken to allocate exactly the requested
  capacity, the behaviour the repository's own `test_ring_buffer` relies on;
* a Rust panic (the `unwrap` on a missing amount) becomes the `unwrapNone`
  outcome.
-/

inductive TransactionType
  | deposit
  | withdrawal
  | dispute
  | resolve
  | chargeback

deriving instance DecidableEq for TransactionType

structure Transaction where
  tx_type : TransactionType
  client : Nat
  id : Nat
  amount : Option Rat

deriving instance DecidableEq for Transaction

structure Client where
  client : Nat
  available : Rat
  held : Rat
  total : Rat
  locked : Bool

deriving instance DecidableEq for Client

/-- `Client::new` from `src/datatypes.rs`. -/
def Client.new (client : Nat) : Client :=
  { client := client, available := 0, held := 0, total := 0, locked := false }

/-- `RingBuffer<T>` from `src/datatypes.rs`: head of `inside` is the oldest
element (the `VecDeque` front). -/
structure RingBuffer (α : Type) where
  capacity : Nat
  inside : List α

deriving instance DecidableEq for RingBuffer

/-- `RingBuffer::with_capacity`. -/
def RingBuffer.with_capacity (α : Type) (capacity : Nat) : RingBuffer α :=
  { capacity := capacity, inside := [] }

/-- `RingBuffer::push`: when the buffer is full, pop the oldest entry, then
push at the back. -/
def RingBuffer.push {α : Type} (b : RingBuffer α) (item : α) : RingBuffer α :=
  let kept := if b.inside.length = b.capacity then b.inside.tail else b.inside
  { b with inside := kept ++ [item] }

/-- `RingBuffer::get_by_tx`: first match scanning from oldest to newest. -/
def RingBuffer.get_by_tx (b : RingBuffer Transaction) (id : Nat) :
    Option Transaction :=
  b.inside.find? (fun tx => tx.id == id)

/-- Push a whole list in order (used to state the eviction-order property). -/
def RingBuffer.pushAll {α : Type} (b : RingBuffer α) (l : List α) :
    RingBuffer α :=
  l.foldl RingBuffer.push b

/-- `HashMap::get`: association-list model, first match wins (keys are unique
in every map the program builds). -/
def mapLookup {α : Type} (m : List (Nat × α)) (k : Nat) : Option α :=
  (m.find? (fun p => p.1 == k)).map (fun p => p.2)

/-- `HashMap::contains_key`. -/
def mapContains {α : Type} (m : List (Nat × α)) (k : Nat) : Bool :=
  (m.find? (fun p => p.1 == k)).isSome

/-- `HashMap::insert`: overwrite an existing key, else append. -/
def mapInsert {α : Type} (m : List (Nat × α)) (k : Nat) (v : α) :
    List (Nat × α) :=
  if mapContains m k then
    m.map (fun p => if p.1 == k then (p.1, v) else p)
  else m ++ [(k, v)]

/-- `HashMap::remove`: the map after removal and the removed value, if any. -/
def mapRemove {α : Type} (m : List (Nat × α)) (k : Nat) :
    List (Nat × α) × Option α :=
  match m.find? (fun p => p.1 == k) with
  | none => (m, none)
  | some p => (m.eraseP (fun q => q.1 == k), some p.2)

/-- In-place mutation through a `&mut` borrow of the value at key `k`. -/
def mapUpdate {α : Type} (m : List (Nat × α)) (k : Nat) (f : α → α) :
    List (Nat × α) :=
  m.map (fun p => if p.1 == k then (p.1, f p.2) else p)

/-- The map effect of `clients.entry(k).or_insert_with(|| Client::new(k))`. -/
def getOrInsert (m : List (Nat × Client)) (k : Nat) : List (Nat × Client) :=
  if mapContains m k then m else m ++ [(k, Client.new k)]

/-- The value returned by `clients.entry(k).or_insert_with(|| Client::new(k))`
before any further mutation. -/
def getOrNew (m : List (Nat × Client)) (k : Nat) : Client :=
  match mapLookup m k with
  | some c => c
  | none => Client.new k

/-- The three stores `process_transaction` receives by `&mut`. -/
structure ProcState where
  clients : List (Nat × Client)
  processed_txs : RingBuffer Transaction
  held_txs : List (Nat × Transaction)

deriving instance DecidableEq for ProcState

/-- The logical error kinds behind the error strings of `process_transaction`. -/
inductive PErr
  | missingAmount
  | insufficientFunds
  | unknownTransaction
  | unknownAccount
  | invalidDisputeTarget
  | unknownDispute

deriving instance DecidableEq for PErr

/-- Outcome of one `process_transaction` call: `Ok(())`, an `Err(String)` of
the given kind, or the panic of `Option::unwrap` on `None`. -/
inductive POut
  | ok
  | err (e : PErr)
  | unwrapNone

deriving instance DecidableEq for POut

/-- `process_transaction` from `src/main.rs`, arm by arm, preserving the
order of lookups, checks and mutations.  Returns the final state of the three
stores together with the outcome; on `unwrapNone` (a Rust panic, which aborts
the process) the returned state is unobservable and we return the input. -/
def process_transaction (tx : Transaction) (s : ProcState) : ProcState × POut :=
  match tx.tx_type with
  | .deposit =>
    let clients1 := getOrInsert s.clients tx.client
    match tx.amount with
    | none => ({ s with clients := clients1 }, .err .missingAmount)
    | some amount =>
      let clients2 := mapUpdate clients1 tx.client (fun c =>
        { c with available := c.available + amount, total := c.total + amount })
      ({ s with clients := clients2,
                processed_txs := s.processed_txs.push tx }, .ok)
  | .withdrawal =>
    let clients1 := getOrInsert s.clients tx.client
    let c0 := getOrNew s.clients tx.client
    match tx.amount with
    | none => ({ s with clients := clients1 }, .err .missingAmount)
    | some amount =>
      if c0.available < amount then
        ({ s with clients := clients1 }, .err .insufficientFunds)
      else
        let clients2 := mapUpdate clients1 tx.client (fun c =>
          { c with available := c.available - amount, total := c.total - amount })
        ({ s with clients := clients2,
                  processed_txs := s.processed_txs.push tx }, .ok)
  | .dispute =>
    match s.processed_txs.get_by_tx tx.id with
    | none => (s, .err .unknownTransaction)
    | some disputed =>
      if mapContains s.clients disputed.client then
        if disputed.tx_type ≠ TransactionType.deposit ∧
            disputed.tx_type ≠ TransactionType.withdrawal then
          (s, .err .invalidDisputeTarget)
        else
          match disputed.amount with
          | none => (s, .unwrapNone)
          | some amount =>
            let clients2 := mapUpdate s.clients disputed.client (fun c =>
              { c with available := c.available - amount, held := c.held + amount })
            ({ s with clients := clients2,
                      held_txs := mapInsert s.held_txs tx.id disputed }, .ok)
      else (s, .err .unknownAccount)
  | .resolve =>
    match mapRemove s.held_txs tx.id with
    | (_, none) => (s, .err .unknownDispute)
    | (held1, some disputed) =>
      if mapContains s.clients disputed.client then
        match disputed.amount with
        | none => (s, .unwrapNone)
        | some amount =>
          let clients2 := mapUpdate s.clients disputed.client (fun c =>
            { c with held := c.held - amount, available := c.available + amount })
          ({ s with clients := clients2,
                    held_txs := (mapRemove held1 disputed.id).1 }, .ok)
      else ({ s with held_txs := held1 }, .err .unknownAccount)
  | .chargeback =>
    match mapRemove s.held_txs tx.id with
    | (_, none) => (s, .err .unknownDispute)
    | (held1, some disputed) =>
      if mapContains s.clients disputed.client then
        match disputed.amount with
        | none => (s, .unwrapNone)
        | some amount =>
          let clients2 := mapUpdate s.clients disputed.client (fun c =>
            { c with held := c.held - amount, total := c.total - amount,
                     locked := true })
          ({ s with clients := clients2,
                    held_txs := (mapRemove held1 disputed.id).1 }, .ok)
      else ({ s with held_txs := held1 }, .err .unknownAccount)

/-- The empty initial state built in `main` (empty ledger, fresh buffer,
empty registry); the capacity is a parameter, `main` uses 10000. -/
def initState (cap : Nat) : ProcState :=
  { clients := [],
    processed_txs := RingBuffer.with_capacity Transaction cap,
    held_txs := [] }

/-- The state after `main`'s processing loop has applied `txs` in order;
errors are non-fatal, the (possibly mutated) state is kept and processing
continues. -/
def runTxs (cap : Nat) (txs : List Transaction) : ProcState :=
  txs.foldl (fun s tx => (process_transaction tx s).1) (initState cap)

/-- Outcome of `main`'s argument handling (`src/main.rs` lines 12-23):
the code rejects `args.len() > 2` with a usage error, otherwise it
evaluates `args[1]`, which panics when absent. -/
inductive ArgOutcome
  | usageError
  | openInput (path : String)
  | indexPanic

deriving instance DecidableEq for ArgOutcome

/-- `main`'s argument check: `if args.len() > 2` then usage error and exit,
else open `&args[1]`. -/
def mainArgCheck (args : List String) : ArgOutcome :=
  if args.length > 2 then .usageError
  else
    match args.get? 1 with
    | some p => .openInput p
    | none => .indexPanic

/-- Whether the ledger `m` has an account `c` with `locked = true`. -/
def ledgerLocked (m : List (Nat × Client)) (c : Nat) : Bool :=
  match mapLookup m c with
  | some cl => cl.locked
  | none => false

/-- Whether the account `c` exists in the ledger of `s` with `locked = true`. -/
def isLocked (s : ProcState) (c : Nat) : Bool :=
  ledgerLocked s.clients c

/-- The per-account balance invariant: `total == available + held`. -/
def BalancedState (s : ProcState) : Prop :=
  ∀ p ∈ s.clients, p.2.total = p.2.available + p.2.held

/-- Shape of a settled transaction: kind Deposit or Withdrawal, amount
present. -/
def SettledShape (t : Transaction) : Prop :=
  (t.tx_type = TransactionType.deposit ∨ t.tx_type = TransactionType.withdrawal) ∧
    t.amount.isSome = true

/-- Reachable-state invariant: every buffer entry and every registry value is
a settled transaction whose owning account exists in the ledger. -/
def WfState (s : ProcState) : Prop :=
  (∀ t ∈ s.processed_txs.inside,
      SettledShape t ∧ mapContains s.clients t.client = true) ∧
  (∀ p ∈ s.held_txs,
      SettledShape p.2 ∧ mapContains s.clients p.2.client = true)

/-- Two clients that agree on everything except possibly the `locked` flag. -/
def ClientSim (a b : Client) : Prop :=
  a.client = b.client ∧ a.available = b.available ∧
    a.held = b.held ∧ a.total = b.total

/-- Two ledgers equal entry-by-entry up to `locked` flags. -/
def LedgerSim (m₁ m₂ : List (Nat × Client)) : Prop :=
  List.Forall₂ (fun p q => p.1 = q.1 ∧ ClientSim p.2 q.2) m₁ m₂

/-- Two states identical except for the `locked` flags of their accounts. -/
def StateSim (s₁ s₂ : ProcState) : Prop :=
  LedgerSim s₁.clients s₂.clients ∧
    s₁.processed_txs = s₂.processed_txs ∧ s₁.held_txs = s₂.held_txs

/-! ### Association-list map lemmas -/

theorem mapLookup_cons {α : Type} (p : Nat × α) (m : List (Nat × α)) (k : Nat) :
    mapLookup (p :: m) k = if p.1 = k then some p.2 else mapLookup m k := by
  by_cases h : p.1 = k <;> simp [mapLookup, List.find?_cons, h]

theorem mapContains_eq_isSome {α : Type} (m : List (Nat × α)) (k : Nat) :
    mapContains m k = (mapLookup m k).isSome := by
  simp [mapContains, mapLookup]

theorem mapUpdate_cons {α : Type} (p : Nat × α) (m : List (Nat × α)) (k : Nat)
    (f : α → α) :
    mapUpdate (p :: m) k f =
      (if p.1 = k then (p.1, f p.2) else p) :: mapUpdate m k f := by
  by_cases h : p.1 = k <;> simp [mapUpdate, h]

theorem mapLookup_mapUpdate_self {α : Type} (m : List (Nat × α)) (k : Nat)
    (f : α → α) :
    mapLookup (mapUpdate m k f) k = (mapLookup m k).map f := by
  induction m with
  | nil => rfl
  | cons p m ih =>
    rw [mapUpdate_cons]
    by_cases h : p.1 = k
    · simp [mapLookup_cons, h]
    · simp [mapLookup_cons, h, ih]

theorem mapLookup_mapUpdate_ne {α : Type} (m : List (Nat × α)) (k : Nat)
    (f : α → α) (k' : Nat) (h : k' ≠ k) :
    mapLookup (mapUpdate m k f) k' = mapLookup m k' := by
  induction m with
  | nil => rfl
  | cons p m ih =>
    rw [mapUpdate_cons]
    by_cases h1 : p.1 = k
    · have h2 : ¬(k = k') := fun hc => h hc.symm
      simp [mapLookup_cons, h1, h2, ih]
    · simp [mapLookup_cons, h1, ih]

theorem mapContains_mapUpdate {α : Type} (m : List (Nat × α)) (k : Nat)
    (f : α → α) (k' : Nat) :
    mapContains (mapUpdate m k f) k' = mapContains m k' := by
  rw [mapContains_eq_isSome, mapContains_eq_isSome]
  by_cases h : k' = k
  · subst h
    rw [mapLookup_mapUpdate_self]
    cases mapLookup m k' <;> rfl
  · rw [mapLookup_mapUpdate_ne _ _ _ _ h]

theorem mapLookup_append {α : Type} (m₁ m₂ : List (Nat × α)) (k : Nat) :
    mapLookup (m₁ ++ m₂) k = (mapLookup m₁ k).or (mapLookup m₂ k) := by
  simp only [mapLookup, List.find?_append]
  cases m₁.find? (fun p => p.1 == k) <;> simp

theorem mapLookup_getOrInsert_self (m : List (Nat × Client)) (k : Nat) :
    mapLookup (getOrInsert m k) k = some (getOrNew m k) := by
  unfold getOrInsert getOrNew
  rw [mapContains_eq_isSome]
  cases hc : mapLookup m k with
  | some c => simp [hc]
  | none => simp [hc, mapLookup_append, mapLookup_cons]

theorem mapLookup_getOrInsert_ne (m : List (Nat × Client)) (k k' : Nat)
    (h : k' ≠ k) :
    mapLookup (getOrInsert m k) k' = mapLookup m k' := by
  unfold getOrInsert
  by_cases hc : mapContains m k
  · simp [hc]
  · have h2 : k ≠ k' := fun hc2 => h hc2.symm
    simp [hc, mapLookup_append, mapLookup_cons, h2]
    cases mapLookup m k' <;> rfl

theorem mapContains_getOrInsert_self (m : List (Nat × Client)) (k : Nat) :
    mapContains (getOrInsert m k) k = true := by
  rw [mapContains_eq_isSome, mapLookup_getOrInsert_self]
  rfl

theorem mapContains_getOrInsert_mono (m : List (Nat × Client)) (k k' : Nat)
    (h : mapContains m k' = true) :
    mapContains (getOrInsert m k) k' = true := by
  by_cases hkk : k' = k
  · subst hkk
    exact mapContains_getOrInsert_self m k'
  · rw [mapContains_eq_isSome, mapLookup_getOrInsert_ne m k k' hkk,
      ← mapContains_eq_isSome]
    exact h

theorem mapRemove_snd {α : Type} (m : List (Nat × α)) (k : Nat) :
    (mapRemove m k).2 = mapLookup m k := by
  unfold mapRemove mapLookup
  cases m.find? (fun p => p.1 == k) <;> simp

theorem mapRemove_fst_of_none {α : Type} (m : List (Nat × α)) (k : Nat)
    (h : mapLookup m k = none) :
    (mapRemove m k).1 = m := by
  unfold mapRemove
  unfold mapLookup at h
  cases hf : m.find? (fun p => p.1 == k) with
  | none => rfl
  | some p => rw [hf] at h; simp at h

theorem mem_mapRemove_fst {α : Type} (m : List (Nat × α)) (k : Nat)
    (p : Nat × α) (h : p ∈ (mapRemove m k).1) : p ∈ m := by
  unfold mapRemove at h
  cases hf : m.find? (fun q => q.1 == k) <;> rw [hf] at h
  · exact h
  · exact (List.eraseP_sublist m).mem h

theorem mem_mapInsert {α : Type} (m : List (Nat × α)) (k : Nat) (v : α)
    (p : Nat × α) (h : p ∈ mapInsert m k v) : p ∈ m ∨ p.2 = v := by
  unfold mapInsert at h
  by_cases hc : mapContains m k <;> simp [hc] at h
  · obtain ⟨q1, q2, hmem, heq⟩ := h
    by_cases h1 : q1 = k
    · right
      rw [← heq]
      simp [h1]
    · left
      rw [← heq]
      simpa [h1] using hmem
  · rcases h with h | h
    · exact Or.inl h
    · exact Or.inr (by rw [h])

theorem mapLookup_mapInsert_self {α : Type} (m : List (Nat × α)) (k : Nat)
    (v : α) : mapLookup (mapInsert m k v) k = some v := by
  unfold mapInsert
  by_cases hc : mapContains m k
  · rw [if_pos hc]
    have hrw : (m.map fun p => if p.1 == k then (p.1, v) else p)
        = mapUpdate m k (fun _ => v) := rfl
    rw [hrw, mapLookup_mapUpdate_self]
    rw [mapContains_eq_isSome] at hc
    cases hl : mapLookup m k with
    | none => rw [hl] at hc; simp at hc
    | some c => simp
  · rw [if_neg hc]
    rw [mapContains_eq_isSome] at hc
    simp at hc
    rw [mapLookup_append, hc, mapLookup_cons]
    simp

/-! ### Ring-buffer lemmas -/

theorem mem_push {α : Type} (b : RingBuffer α) (a x : α)
    (h : x ∈ (RingBuffer.push b a).inside) : x ∈ b.inside ∨ x = a := by
  by_cases hl : b.inside.length = b.capacity
  · simp [RingBuffer.push, hl] at h
    rcases h with h | h
    · exact Or.inl (List.mem_of_mem_tail h)
    · exact Or.inr h
  · simp [RingBuffer.push, hl] at h
    exact h

theorem get_by_tx_some_mem (b : RingBuffer Transaction) (id : Nat)
    (t : Transaction) (h : b.get_by_tx id = some t) : t ∈ b.inside :=
  List.mem_of_find?_eq_some h

theorem mapLookup_some_mem {α : Type} (m : List (Nat × α)) (k : Nat) (v : α)
    (h : mapLookup m k = some v) : ∃ p ∈ m, p.2 = v ∧ p.1 = k := by
  unfold mapLookup at h
  cases hf : m.find? (fun p => p.1 == k) with
  | none => rw [hf] at h; simp at h
  | some p =>
    rw [hf] at h
    simp at h
    refine ⟨p, List.mem_of_find?_eq_some hf, h, ?_⟩
    have := List.find?_some hf
    simpa using this

/-! ### Eviction order of the lookback buffer -/

theorem pushAll_cons {α : Type} (b : RingBuffer α) (a : α) (l : List α) :
    RingBuffer.pushAll b (a :: l) = RingBuffer.pushAll (b.push a) l := rfl

theorem push_capacity {α : Type} (b : RingBuffer α) (a : α) :
    (b.push a).capacity = b.capacity := rfl

theorem pushAll_inside {α : Type} (l : List α) (b : RingBuffer α)
    (hcap : 1 ≤ b.capacity) (hlen : b.inside.length ≤ b.capacity) :
    (RingBuffer.pushAll b l).inside =
      (b.inside ++ l).drop (b.inside.length + l.length - b.capacity) := by
  induction l generalizing b with
  | nil =>
    simp only [RingBuffer.pushAll, List.foldl_nil, List.append_nil,
      List.length_nil, Nat.add_zero]
    have h0 : b.inside.length - b.capacity = 0 := by omega
    rw [h0, List.drop_zero]
  | cons a l ih =>
    rw [pushAll_cons]
    by_cases hfull : b.inside.length = b.capacity
    · obtain ⟨h0, t, hbt⟩ : ∃ h0 t, b.inside = h0 :: t := by
        cases hb : b.inside with
        | nil => rw [hb] at hfull; simp at hfull; omega
        | cons x xs => exact ⟨x, xs, rfl⟩
      have hfull' : t.length + 1 = b.capacity := by
        rw [hbt] at hfull
        simpa using hfull
      have hpush : (b.push a).inside = t ++ [a] := by
        have hrfl : (b.push a).inside =
            (if b.inside.length = b.capacity then b.inside.tail else b.inside)
              ++ [a] := rfl
        rw [hrfl, if_pos hfull, hbt]
        rfl
      have hlen2 : (b.push a).inside.length ≤ (b.push a).capacity := by
        rw [hpush, push_capacity]
        simp only [List.length_append, List.length_singleton]
        omega
      have hih := ih (b.push a) (by rw [push_capacity]; exact hcap) hlen2
      rw [hih, hpush, push_capacity]
      have hidx1 : (t ++ [a]).length + l.length - b.capacity = l.length := by
        simp only [List.length_append, List.length_singleton]
        omega
      have hidx2 : b.inside.length + (a :: l).length - b.capacity
          = l.length + 1 := by
        rw [hbt]
        simp only [List.length_cons]
        omega
      rw [hidx1, hidx2, hbt]
      simp only [List.append_assoc, List.singleton_append, List.cons_append,
        List.nil_append, List.drop_succ_cons]
    · have hlt : b.inside.length < b.capacity :=
        Nat.lt_of_le_of_ne hlen hfull
      have hpush : (b.push a).inside = b.inside ++ [a] := by
        have hrfl : (b.push a).inside =
            (if b.inside.length = b.capacity then b.inside.tail else b.inside)
              ++ [a] := rfl
        rw [hrfl, if_neg hfull]
      have hlen2 : (b.push a).inside.length ≤ (b.push a).capacity := by
        rw [hpush, push_capacity]
        simp only [List.length_append, List.length_singleton]
        omega
      have hih := ih (b.push a) (by rw [push_capacity]; exact hcap) hlen2
      rw [hih, hpush, push_capacity]
      have hidx : (b.inside ++ [a]).length + l.length - b.capacity
          = b.inside.length + (a :: l).length - b.capacity := by
        simp only [List.length_append, List.length_singleton, List.length_cons,
          List.length_nil]
        omega
      rw [hidx, List.append_assoc, List.singleton_append]

theorem find?_by_id_of_nodup (l : List Transaction) (tx : Transaction)
    (hnd : (l.map Transaction.id).Nodup) (hmem : tx ∈ l) :
    l.find? (fun t => t.id == tx.id) = some tx := by
  induction l with
  | nil => cases hmem
  | cons a l ih =>
    rcases List.mem_cons.mp hmem with rfl | hmem'
    · rw [List.find?_cons]
      simp
    · have hnd' := hnd
      rw [List.map_cons, List.nodup_cons] at hnd'
      have hne : (a.id == tx.id) = false := by
        simp only [beq_eq_false_iff_ne, ne_eq]
        intro he
        exact hnd'.1 (he ▸ List.mem_map_of_mem Transaction.id hmem')
      rw [List.find?_cons, hne]
      exact ih hnd'.2 hmem'

/-- C4: pushing `c + k` transactions with pairwise-distinct ids into an empty
buffer of capacity `c ≥ 1` leaves exactly the `c` most recent transactions
as the buffer content; each of them is retrievable by `get_by_tx` and equal to
the pushed value, while `get_by_tx` returns `none` for each of the `k` oldest
ids. -/
theorem ring_buffer_eviction_order (c k : Nat) (l : List Transaction)
    (hc : 1 ≤ c) (hk : 1 ≤ k) (hlen : l.length = c + k)
    (hnd : (l.map Transaction.id).Nodup) :
    ((RingBuffer.with_capacity Transaction c).pushAll l).inside = l.drop k ∧
    (∀ tx ∈ l.drop k,
      ((RingBuffer.with_capacity Transaction c).pushAll l).get_by_tx tx.id
        = some tx) ∧
    (∀ tx ∈ l.take k,
      ((RingBuffer.with_capacity Transaction c).pushAll l).get_by_tx tx.id
        = none) := by
  have hinside :
      ((RingBuffer.with_capacity Transaction c).pushAll l).inside = l.drop k := by
    rw [pushAll_inside l (RingBuffer.with_capacity Transaction c) hc
      (by simp [RingBuffer.with_capacity])]
    have hidx : (RingBuffer.with_capacity Transaction c).inside.length
        + l.length - (RingBuffer.with_capacity Transaction c).capacity = k := by
      simp only [RingBuffer.with_capacity, List.length_nil, Nat.zero_add, hlen]
      omega
    rw [hidx]
    simp [RingBuffer.with_capacity]
  have hndsplit := hnd
  rw [← List.take_append_drop k l, List.map_append, List.nodup_append] at hndsplit
  refine ⟨hinside, ?_, ?_⟩
  · intro tx hmem
    unfold RingBuffer.get_by_tx
    rw [hinside]
    exact find?_by_id_of_nodup (l.drop k) tx hndsplit.2.1 hmem
  · intro tx hmem
    unfold RingBuffer.get_by_tx
    rw [hinside]
    rw [List.find?_eq_none]
    intro x hx
    simp only [beq_eq_false_iff_ne, ne_eq, beq_iff_eq]
    intro he
    exact hndsplit.2.2 (List.mem_map_of_mem Transaction.id hmem)
      (he ▸ List.mem_map_of_mem Transaction.id hx)

/-- C4 witness: capacity 2, three pushes with ids 1, 2, 3; the buffer holds
exactly ids 2 and 3, id 3 is retrievable as pushed, id 1 is evicted. -/
theorem ring_buffer_eviction_order_witness :
    ((RingBuffer.with_capacity Transaction 2).pushAll
        [⟨TransactionType.deposit, 1, 1, some 1⟩,
         ⟨TransactionType.deposit, 1, 2, some 2⟩,
         ⟨TransactionType.deposit, 1, 3, some 3⟩]).inside
      = [⟨TransactionType.deposit, 1, 2, some 2⟩,
         ⟨TransactionType.deposit, 1, 3, some 3⟩] ∧
    ((RingBuffer.with_capacity Transaction 2).pushAll
        [⟨TransactionType.deposit, 1, 1, some 1⟩,
         ⟨TransactionType.deposit, 1, 2, some 2⟩,
         ⟨TransactionType.deposit, 1, 3, some 3⟩]).get_by_tx 3
      = some ⟨TransactionType.deposit, 1, 3, some 3⟩ ∧
    ((RingBuffer.with_capacity Transaction 2).pushAll
        [⟨TransactionType.deposit, 1, 1, some 1⟩,
         ⟨TransactionType.deposit, 1, 2, some 2⟩,
         ⟨TransactionType.deposit, 1, 3, some 3⟩]).get_by_tx 1 = none := by
  have h := ring_buffer_eviction_order 2 1
    [⟨TransactionType.deposit, 1, 1, some 1⟩,
     ⟨TransactionType.deposit, 1, 2, some 2⟩,
     ⟨TransactionType.deposit, 1, 3, some 3⟩]
    (by decide) (by decide) (by decide) (by decide)
  refine ⟨h.1, ?_, ?_⟩
  · exact h.2.1 ⟨TransactionType.deposit, 1, 3, some 3⟩ (by decide)
  · exact h.2.2 ⟨TransactionType.deposit, 1, 1, some 1⟩ (by decide)

/-! ### Unknown-dispute rejection -/

/-- C5: a Resolve or Chargeback whose transaction id is not a key of the
held-transaction registry fails with the UnknownDispute error and returns the
state unchanged (ledger, buffer and registry). -/
theorem unknown_dispute_rejected (s : ProcState) (tx : Transaction)
    (hk : tx.tx_type = TransactionType.resolve ∨
      tx.tx_type = TransactionType.chargeback)
    (hm : mapLookup s.held_txs tx.id = none) :
    process_transaction tx s = (s, POut.err PErr.unknownDispute) := by
  have h1 := mapRemove_snd s.held_txs tx.id
  rw [hm] at h1
  have h2 := mapRemove_fst_of_none s.held_txs tx.id hm
  have hr : mapRemove s.held_txs tx.id = (s.held_txs, none) := by
    cases hrm : mapRemove s.held_txs tx.id with
    | mk fst snd =>
      rw [hrm] at h1 h2
      simp at h1 h2
      rw [h1, h2]
  rcases hk with hk | hk <;> simp [process_transaction, hk, hr]

/-- C5 witness: a Resolve against the empty registry of the initial state. -/
theorem unknown_dispute_rejected_witness :
    process_transaction ⟨TransactionType.resolve, 1, 42, none⟩ (initState 5)
      = (initState 5, POut.err PErr.unknownDispute) :=
  unknown_dispute_rejected (initState 5)
    ⟨TransactionType.resolve, 1, 42, none⟩ (Or.inl rfl) rfl

/-! ### Argument handling -/

/-- C9 (code-bug evidence): the argument-count check only rejects more than
two arguments, so for an argument vector of length one (program name alone)
the usage-error path is not taken and the access of index 1 is reached,
panicking on out-of-bounds indexing. -/
theorem single_arg_reaches_index_access :
    mainArgCheck ["transaction-processor"] = ArgOutcome.indexPanic ∧
      mainArgCheck ["transaction-processor"] ≠ ArgOutcome.usageError := by
  constructor
  · rfl
  · decide

/-! ### Invariant machinery -/

theorem mem_mapUpdate {α : Type} (m : List (Nat × α)) (k : Nat) (f : α → α)
    (p : Nat × α) (h : p ∈ mapUpdate m k f) :
    ∃ q ∈ m, p = q ∨ p = (q.1, f q.2) := by
  unfold mapUpdate at h
  simp at h
  obtain ⟨a, c, hm, he⟩ := h
  refine ⟨(a, c), hm, ?_⟩
  by_cases h1 : a = k
  · right
    rw [← he]
    simp [h1]
  · left
    rw [← he]
    simp [h1]

theorem mem_getOrInsert (m : List (Nat × Client)) (k : Nat) (p : Nat × Client)
    (h : p ∈ getOrInsert m k) : p ∈ m ∨ p = (k, Client.new k) := by
  unfold getOrInsert at h
  by_cases hc : mapContains m k
  · rw [if_pos hc] at h
    exact Or.inl h
  · rw [if_neg hc] at h
    rcases List.mem_append.mp h with h | h
    · exact Or.inl h
    · exact Or.inr (by simpa using h)

theorem foldl_preserve (P : ProcState → Prop)
    (hstep : ∀ s tx, P s → P (process_transaction tx s).1)
    (txs : List Transaction) (s : ProcState) (hs : P s) :
    P (txs.foldl (fun s tx => (process_transaction tx s).1) s) := by
  induction txs generalizing s with
  | nil => exact hs
  | cons t ts ih => exact ih _ (hstep s t hs)

theorem runTxs_preserve (P : ProcState → Prop)
    (hstep : ∀ s tx, P s → P (process_transaction tx s).1)
    (cap : Nat) (hinit : P (initState cap)) (txs : List Transaction) :
    P (runTxs cap txs) :=
  foldl_preserve P hstep txs (initState cap) hinit

/-! ### The balance invariant -/

theorem balanced_mapUpdate (m : List (Nat × Client)) (k : Nat)
    (f : Client → Client)
    (hf : ∀ c : Client, c.total = c.available + c.held →
      (f c).total = (f c).available + (f c).held)
    (h : ∀ p ∈ m, p.2.total = p.2.available + p.2.held) :
    ∀ p ∈ mapUpdate m k f, p.2.total = p.2.available + p.2.held := by
  intro p hp
  obtain ⟨q, hq, hpq | hpq⟩ := mem_mapUpdate m k f p hp
  · rw [hpq]
    exact h q hq
  · rw [hpq]
    exact hf q.2 (h q hq)

theorem balanced_getOrInsert (m : List (Nat × Client)) (k : Nat)
    (h : ∀ p ∈ m, p.2.total = p.2.available + p.2.held) :
    ∀ p ∈ getOrInsert m k, p.2.total = p.2.available + p.2.held := by
  intro p hp
  rcases mem_getOrInsert m k p hp with hp | hp
  · exact h p hp
  · rw [hp]
    simp [Client.new]

theorem balanced_step (s : ProcState) (tx : Transaction)
    (h : BalancedState s) : BalancedState (process_transaction tx s).1 := by
  unfold BalancedState at h ⊢
  cases htt : tx.tx_type
  case deposit =>
    cases ham : tx.amount with
    | none =>
      have hcl : (process_transaction tx s).1.clients
          = getOrInsert s.clients tx.client := by
        simp [process_transaction, htt, ham]
      rw [hcl]
      exact balanced_getOrInsert s.clients tx.client h
    | some a =>
      have hcl : (process_transaction tx s).1.clients
          = mapUpdate (getOrInsert s.clients tx.client) tx.client
              (fun c => { c with available := c.available + a,
                                 total := c.total + a }) := by
        simp [process_transaction, htt, ham]
      rw [hcl]
      refine balanced_mapUpdate _ _ _ (fun c hc => ?_)
        (balanced_getOrInsert s.clients tx.client h)
      show c.total + a = c.available + a + c.held
      rw [hc]
      ring
  case withdrawal =>
    cases ham : tx.amount with
    | none =>
      have hcl : (process_transaction tx s).1.clients
          = getOrInsert s.clients tx.client := by
        simp [process_transaction, htt, ham]
      rw [hcl]
      exact balanced_getOrInsert s.clients tx.client h
    | some a =>
      by_cases hlt : (getOrNew s.clients tx.client).available < a
      · have hcl : (process_transaction tx s).1.clients
            = getOrInsert s.clients tx.client := by
          simp [process_transaction, htt, ham, hlt]
        rw [hcl]
        exact balanced_getOrInsert s.clients tx.client h
      · have hcl : (process_transaction tx s).1.clients
            = mapUpdate (getOrInsert s.clients tx.client) tx.client
                (fun c => { c with available := c.available - a,
                                   total := c.total - a }) := by
          simp [process_transaction, htt, ham, hlt]
        rw [hcl]
        refine balanced_mapUpdate _ _ _ (fun c hc => ?_)
          (balanced_getOrInsert s.clients tx.client h)
        show c.total - a = c.available - a + c.held
        rw [hc]
        ring
  case dispute =>
    cases hgb : s.processed_txs.get_by_tx tx.id with
    | none =>
      have hcl : (process_transaction tx s).1.clients = s.clients := by
        simp [process_transaction, htt, hgb]
      rw [hcl]
      exact h
    | some d =>
      by_cases hcont : mapContains s.clients d.client
      · by_cases hkind : d.tx_type ≠ TransactionType.deposit ∧
            d.tx_type ≠ TransactionType.withdrawal
        · have hcl : (process_transaction tx s).1.clients = s.clients := by
            simp [process_transaction, htt, hgb, hcont, hkind]
          rw [hcl]
          exact h
        · cases ham : d.amount with
          | none =>
            have hcl : (process_transaction tx s).1.clients = s.clients := by
              simp [process_transaction, htt, hgb, hcont, hkind, ham]
            rw [hcl]
            exact h
          | some a =>
            have hcl : (process_transaction tx s).1.clients
                = mapUpdate s.clients d.client
                    (fun c => { c with available := c.available - a,
                                       held := c.held + a }) := by
              simp [process_transaction, htt, hgb, hcont, hkind, ham]
            rw [hcl]
            refine balanced_mapUpdate _ _ _ (fun c hc => ?_) h
            show c.total = c.available - a + (c.held + a)
            rw [hc]
            ring
      · have hcl : (process_transaction tx s).1.clients = s.clients := by
          simp [process_transaction, htt, hgb, hcont]
        rw [hcl]
        exact h
  case resolve =>
    rcases hrm : mapRemove s.held_txs tx.id with ⟨m1, o⟩
    cases o with
    | none =>
      have hcl : (process_transaction tx s).1.clients = s.clients := by
        simp [process_transaction, htt, hrm]
      rw [hcl]
      exact h
    | some d =>
      by_cases hcont : mapContains s.clients d.client
      · cases ham : d.amount with
        | none =>
          have hcl : (process_transaction tx s).1.clients = s.clients := by
            simp [process_transaction, htt, hrm, hcont, ham]
          rw [hcl]
          exact h
        | some a =>
          have hcl : (process_transaction tx s).1.clients
              = mapUpdate s.clients d.client
                  (fun c => { c with held := c.held - a,
                                     available := c.available + a }) := by
            simp [process_transaction, htt, hrm, hcont, ham]
          rw [hcl]
          refine balanced_mapUpdate _ _ _ (fun c hc => ?_) h
          show c.total = c.available + a + (c.held - a)
          rw [hc]
          ring
      · have hcl : (process_transaction tx s).1.clients = s.clients := by
          simp [process_transaction, htt, hrm, hcont]
        rw [hcl]
        exact h
  case chargeback =>
    rcases hrm : mapRemove s.held_txs tx.id with ⟨m1, o⟩
    cases o with
    | none =>
      have hcl : (process_transaction tx s).1.clients = s.clients := by
        simp [process_transaction, htt, hrm]
      rw [hcl]
      exact h
    | some d =>
      by_cases hcont : mapContains s.clients d.client
      · cases ham : d.amount with
        | none =>
          have hcl : (process_transaction tx s).1.clients = s.clients := by
            simp [process_transaction, htt, hrm, hcont, ham]
          rw [hcl]
          exact h
        | some a =>
          have hcl : (process_transaction tx s).1.clients
              = mapUpdate s.clients d.client
                  (fun c => { c with held := c.held - a,
                                     total := c.total - a,
                                     locked := true }) := by
            simp [process_transaction, htt, hrm, hcont, ham]
          rw [hcl]
          refine balanced_mapUpdate _ _ _ (fun c hc => ?_) h
          show c.total - a = c.available + (c.held - a)
          rw [hc]
          ring
      · have hcl : (process_transaction tx s).1.clients = s.clients := by
          simp [process_transaction, htt, hrm, hcont]
        rw [hcl]
        exact h

theorem balanced_init (cap : Nat) : BalancedState (initState cap) :=
  fun p hp => absurd hp (List.not_mem_nil p)

theorem balanced_runTxs (cap : Nat) (txs : List Transaction) :
    BalancedState (runTxs cap txs) :=
  runTxs_preserve BalancedState balanced_step cap (balanced_init cap) txs

/-- C3: in every state reachable from the empty initial state, every account
in the ledger satisfies `total = available + held` exactly (over the embedded
exact arithmetic). -/
theorem total_eq_available_add_held (cap : Nat) (txs : List Transaction)
    (c : Nat) (cl : Client)
    (h : mapLookup (runTxs cap txs).clients c = some cl) :
    cl.total = cl.available + cl.held := by
  obtain ⟨p, hp, hv, hk⟩ := mapLookup_some_mem _ _ _ h
  rw [← hv]
  exact balanced_runTxs cap txs p hp

/-- C3 witness: after one deposit of 5 the account of client 1 balances. -/
theorem total_eq_available_add_held_witness :
    ({ client := 1, available := 0 + 5, held := 0, total := 0 + 5,
       locked := false } : Client).total
      = ({ client := 1, available := 0 + 5, held := 0, total := 0 + 5,
           locked := false } : Client).available
        + ({ client := 1, available := 0 + 5, held := 0, total := 0 + 5,
             locked := false } : Client).held :=
  total_eq_available_add_held 10
    [⟨TransactionType.deposit, 1, 1, some 5⟩] 1
    { client := 1, available := 0 + 5, held := 0, total := 0 + 5,
      locked := false }
    rfl

/-! ### The reachable-state well-formedness invariant -/

theorem wf_step (s : ProcState) (tx : Transaction) (h : WfState s) :
    WfState (process_transaction tx s).1 := by
  obtain ⟨hbuf, hheld⟩ := h
  cases htt : tx.tx_type
  case deposit =>
    cases ham : tx.amount with
    | none =>
      have hcl : (process_transaction tx s).1.clients
          = getOrInsert s.clients tx.client := by
        simp [process_transaction, htt, ham]
      have hbu : (process_transaction tx s).1.processed_txs
          = s.processed_txs := by
        simp [process_transaction, htt, ham]
      have hhe : (process_transaction tx s).1.held_txs = s.held_txs := by
        simp [process_transaction, htt, ham]
      refine ⟨fun t ht => ?_, fun p hp => ?_⟩
      · rw [hbu] at ht
        rw [hcl]
        exact ⟨(hbuf t ht).1, mapContains_getOrInsert_mono _ _ _ (hbuf t ht).2⟩
      · rw [hhe] at hp
        rw [hcl]
        exact ⟨(hheld p hp).1, mapContains_getOrInsert_mono _ _ _ (hheld p hp).2⟩
    | some a =>
      have hcl : (process_transaction tx s).1.clients
          = mapUpdate (getOrInsert s.clients tx.client) tx.client
              (fun c => { c with available := c.available + a,
                                 total := c.total + a }) := by
        simp [process_transaction, htt, ham]
      have hbu : (process_transaction tx s).1.processed_txs
          = s.processed_txs.push tx := by
        simp [process_transaction, htt, ham]
      have hhe : (process_transaction tx s).1.held_txs = s.held_txs := by
        simp [process_transaction, htt, ham]
      refine ⟨fun t ht => ?_, fun p hp => ?_⟩
      · rw [hbu] at ht
        rw [hcl, mapContains_mapUpdate]
        rcases mem_push _ _ _ ht with ht | htx
        · exact ⟨(hbuf t ht).1, mapContains_getOrInsert_mono _ _ _ (hbuf t ht).2⟩
        · subst htx
          refine ⟨⟨Or.inl htt, ?_⟩, mapContains_getOrInsert_self _ _⟩
          rw [ham]
          rfl
      · rw [hhe] at hp
        rw [hcl, mapContains_mapUpdate]
        exact ⟨(hheld p hp).1, mapContains_getOrInsert_mono _ _ _ (hheld p hp).2⟩
  case withdrawal =>
    cases ham : tx.amount with
    | none =>
      have hcl : (process_transaction tx s).1.clients
          = getOrInsert s.clients tx.client := by
        simp [process_transaction, htt, ham]
      have hbu : (process_transaction tx s).1.processed_txs
          = s.processed_txs := by
        simp [process_transaction, htt, ham]
      have hhe : (process_transaction tx s).1.held_txs = s.held_txs := by
        simp [process_transaction, htt, ham]
      refine ⟨fun t ht => ?_, fun p hp => ?_⟩
      · rw [hbu] at ht
        rw [hcl]
        exact ⟨(hbuf t ht).1, mapContains_getOrInsert_mono _ _ _ (hbuf t ht).2⟩
      · rw [hhe] at hp
        rw [hcl]
        exact ⟨(hheld p hp).1, mapContains_getOrInsert_mono _ _ _ (hheld p hp).2⟩
    | some a =>
      by_cases hlt : (getOrNew s.clients tx.client).available < a
      · have hcl : (process_transaction tx s).1.clients
            = getOrInsert s.clients tx.client := by
          simp [process_transaction, htt, ham, hlt]
        have hbu : (process_transaction tx s).1.processed_txs
            = s.processed_txs := by
          simp [process_transaction, htt, ham, hlt]
        have hhe : (process_transaction tx s).1.held_txs = s.held_txs := by
          simp [process_transaction, htt, ham, hlt]
        refine ⟨fun t ht => ?_, fun p hp => ?_⟩
        · rw [hbu] at ht
          rw [hcl]
          exact ⟨(hbuf t ht).1, mapContains_getOrInsert_mono _ _ _ (hbuf t ht).2⟩
        · rw [hhe] at hp
          rw [hcl]
          exact ⟨(hheld p hp).1, mapContains_getOrInsert_mono _ _ _ (hheld p hp).2⟩
      · have hcl : (process_transaction tx s).1.clients
            = mapUpdate (getOrInsert s.clients tx.client) tx.client
                (fun c => { c with available := c.available - a,
                                   total := c.total - a }) := by
          simp [process_transaction, htt, ham, hlt]
        have hbu : (process_transaction tx s).1.processed_txs
            = s.processed_txs.push tx := by
          simp [process_transaction, htt, ham, hlt]
        have hhe : (process_transaction tx s).1.held_txs = s.held_txs := by
          simp [process_transaction, htt, ham, hlt]
        refine ⟨fun t ht => ?_, fun p hp => ?_⟩
        · rw [hbu] at ht
          rw [hcl, mapContains_mapUpdate]
          rcases mem_push _ _ _ ht with ht | htx
          · exact ⟨(hbuf t ht).1,
              mapContains_getOrInsert_mono _ _ _ (hbuf t ht).2⟩
          · subst htx
            refine ⟨⟨Or.inr htt, ?_⟩, mapContains_getOrInsert_self _ _⟩
            rw [ham]
            rfl
        · rw [hhe] at hp
          rw [hcl, mapContains_mapUpdate]
          exact ⟨(hheld p hp).1, mapContains_getOrInsert_mono _ _ _ (hheld p hp).2⟩
  case dispute =>
    cases hgb : s.processed_txs.get_by_tx tx.id with
    | none =>
      have hs : (process_transaction tx s).1 = s := by
        simp [process_transaction, htt, hgb]
      rw [hs]
      exact ⟨hbuf, hheld⟩
    | some d =>
      by_cases hcont : mapContains s.clients d.client
      · by_cases hkind : d.tx_type ≠ TransactionType.deposit ∧
            d.tx_type ≠ TransactionType.withdrawal
        · have hs : (process_transaction tx s).1 = s := by
            simp [process_transaction, htt, hgb, hcont, hkind]
          rw [hs]
          exact ⟨hbuf, hheld⟩
        · cases ham : d.amount with
          | none =>
            have hs : (process_transaction tx s).1 = s := by
              simp [process_transaction, htt, hgb, hcont, hkind, ham]
            rw [hs]
            exact ⟨hbuf, hheld⟩
          | some a =>
            have hcl : (process_transaction tx s).1.clients
                = mapUpdate s.clients d.client
                    (fun c => { c with available := c.available - a,
                                       held := c.held + a }) := by
              simp [process_transaction, htt, hgb, hcont, hkind, ham]
            have hbu : (process_transaction tx s).1.processed_txs
                = s.processed_txs := by
              simp [process_transaction, htt, hgb, hcont, hkind, ham]
            have hhe : (process_transaction tx s).1.held_txs
                = mapInsert s.held_txs tx.id d := by
              simp [process_transaction, htt, hgb, hcont, hkind, ham]
            refine ⟨fun t ht => ?_, fun p hp => ?_⟩
            · rw [hbu] at ht
              rw [hcl, mapContains_mapUpdate]
              exact ⟨(hbuf t ht).1, (hbuf t ht).2⟩
            · rw [hhe] at hp
              rw [hcl, mapContains_mapUpdate]
              rcases mem_mapInsert _ _ _ p hp with hp | hp2
              · exact ⟨(hheld p hp).1, (hheld p hp).2⟩
              · have hdmem := get_by_tx_some_mem _ _ _ hgb
                rw [hp2]
                exact ⟨(hbuf d hdmem).1, (hbuf d hdmem).2⟩
      · have hs : (process_transaction tx s).1 = s := by
          simp [process_transaction, htt, hgb, hcont]
        rw [hs]
        exact ⟨hbuf, hheld⟩
  case resolve =>
    rcases hrm : mapRemove s.held_txs tx.id with ⟨m1, o⟩
    have hm1 : m1 = (mapRemove s.held_txs tx.id).1 := by rw [hrm]
    cases o with
    | none =>
      have hs : (process_transaction tx s).1 = s := by
        simp [process_transaction, htt, hrm]
      rw [hs]
      exact ⟨hbuf, hheld⟩
    | some d =>
      by_cases hcont : mapContains s.clients d.client
      · cases ham : d.amount with
        | none =>
          have hs : (process_transaction tx s).1 = s := by
            simp [process_transaction, htt, hrm, hcont, ham]
          rw [hs]
          exact ⟨hbuf, hheld⟩
        | some a =>
          have hcl : (process_transaction tx s).1.clients
              = mapUpdate s.clients d.client
                  (fun c => { c with held := c.held - a,
                                     available := c.available + a }) := by
            simp [process_transaction, htt, hrm, hcont, ham]
          have hbu : (process_transaction tx s).1.processed_txs
              = s.processed_txs := by
            simp [process_transaction, htt, hrm, hcont, ham]
          have hhe : (process_transaction tx s).1.held_txs
              = (mapRemove m1 d.id).1 := by
            simp [process_transaction, htt, hrm, hcont, ham]
          refine ⟨fun t ht => ?_, fun p hp => ?_⟩
          · rw [hbu] at ht
            rw [hcl, mapContains_mapUpdate]
            exact ⟨(hbuf t ht).1, (hbuf t ht).2⟩
          · rw [hhe] at hp
            have hp1 : p ∈ m1 := mem_mapRemove_fst _ _ _ hp
            rw [hm1] at hp1
            have hp0 : p ∈ s.held_txs := mem_mapRemove_fst _ _ _ hp1
            rw [hcl, mapContains_mapUpdate]
            exact ⟨(hheld p hp0).1, (hheld p hp0).2⟩
      · have hcl : (process_transaction tx s).1.clients = s.clients := by
          simp [process_transaction, htt, hrm, hcont]
        have hbu : (process_transaction tx s).1.processed_txs
            = s.processed_txs := by
          simp [process_transaction, htt, hrm, hcont]
        have hhe : (process_transaction tx s).1.held_txs = m1 := by
          simp [process_transaction, htt, hrm, hcont]
        refine ⟨fun t ht => ?_, fun p hp => ?_⟩
        · rw [hbu] at ht
          rw [hcl]
          exact ⟨(hbuf t ht).1, (hbuf t ht).2⟩
        · rw [hhe, hm1] at hp
          have hp0 : p ∈ s.held_txs := mem_mapRemove_fst _ _ _ hp
          rw [hcl]
          exact ⟨(hheld p hp0).1, (hheld p hp0).2⟩
  case chargeback =>
    rcases hrm : mapRemove s.held_txs tx.id with ⟨m1, o⟩
    have hm1 : m1 = (mapRemove s.held_txs tx.id).1 := by rw [hrm]
    cases o with
    | none =>
      have hs : (process_transaction tx s).1 = s := by
        simp [process_transaction, htt, hrm]
      rw [hs]
      exact ⟨hbuf, hheld⟩
    | some d =>
      by_cases hcont : mapContains s.clients d.client
      · cases ham : d.amount with
        | none =>
          have hs : (process_transaction tx s).1 = s := by
            simp [process_transaction, htt, hrm, hcont, ham]
          rw [hs]
          exact ⟨hbuf, hheld⟩
        | some a =>
          have hcl : (process_transaction tx s).1.clients
              = mapUpdate s.clients d.client
                  (fun c => { c with held := c.held - a,
                                     total := c.total - a,
                                     locked := true }) := by
            simp [process_transaction, htt, hrm, hcont, ham]
          have hbu : (process_transaction tx s).1.processed_txs
              = s.processed_txs := by
            simp [process_transaction, htt, hrm, hcont, ham]
          have hhe : (process_transaction tx s).1.held_txs
              = (mapRemove m1 d.id).1 := by
            simp [process_transaction, htt, hrm, hcont, ham]
          refine ⟨fun t ht => ?_, fun p hp => ?_⟩
          · rw [hbu] at ht
            rw [hcl, mapContains_mapUpdate]
            exact ⟨(hbuf t ht).1, (hbuf t ht).2⟩
          · rw [hhe] at hp
            have hp1 : p ∈ m1 := mem_mapRemove_fst _ _ _ hp
            rw [hm1] at hp1
            have hp0 : p ∈ s.held_txs := mem_mapRemove_fst _ _ _ hp1
            rw [hcl, mapContains_mapUpdate]
            exact ⟨(hheld p hp0).1, (hheld p hp0).2⟩
      · have hcl : (process_transaction tx s).1.clients = s.clients := by
          simp [process_transaction, htt, hrm, hcont]
        have hbu : (process_transaction tx s).1.processed_txs
            = s.processed_txs := by
          simp [process_transaction, htt, hrm, hcont]
        have hhe : (process_transaction tx s).1.held_txs = m1 := by
          simp [process_transaction, htt, hrm, hcont]
        refine ⟨fun t ht => ?_, fun p hp => ?_⟩
        · rw [hbu] at ht
          rw [hcl]
          exact ⟨(hbuf t ht).1, (hbuf t ht).2⟩
        · rw [hhe, hm1] at hp
          have hp0 : p ∈ s.held_txs := mem_mapRemove_fst _ _ _ hp
          rw [hcl]
          exact ⟨(hheld p hp0).1, (hheld p hp0).2⟩

theorem wf_init (cap : Nat) : WfState (initState cap) :=
  ⟨fun t ht => absurd ht (List.not_mem_nil t),
   fun p hp => absurd hp (List.not_mem_nil p)⟩

theorem wf_runTxs (cap : Nat) (txs : List Transaction) :
    WfState (runTxs cap txs) :=
  runTxs_preserve WfState wf_step cap (wf_init cap) txs

/-- C6: on every state reachable from the empty initial state, a successful
buffer lookup (Dispute arm) or registry lookup (Resolve/Chargeback arms)
yields a transaction whose owning account is present in the ledger, and
`process_transaction` never returns the UnknownAccount error there. -/
theorem unknown_account_unreachable (cap : Nat) (txs : List Transaction)
    (tx : Transaction) :
    (∀ d, (runTxs cap txs).processed_txs.get_by_tx tx.id = some d →
        mapContains (runTxs cap txs).clients d.client = true) ∧
    (∀ d, mapLookup (runTxs cap txs).held_txs tx.id = some d →
        mapContains (runTxs cap txs).clients d.client = true) ∧
    (process_transaction tx (runTxs cap txs)).2
      ≠ POut.err PErr.unknownAccount := by
  obtain ⟨hbuf, hheld⟩ := wf_runTxs cap txs
  refine ⟨?_, ?_, ?_⟩
  · intro d hd
    exact (hbuf d (get_by_tx_some_mem _ _ _ hd)).2
  · intro d hd
    obtain ⟨p, hp, hv, _⟩ := mapLookup_some_mem _ _ _ hd
    exact hv ▸ (hheld p hp).2
  · cases htt : tx.tx_type
    case deposit =>
      cases ham : tx.amount <;>
        simp [process_transaction, htt, ham]
    case withdrawal =>
      cases ham : tx.amount with
      | none => simp [process_transaction, htt, ham]
      | some a =>
        by_cases hlt : (getOrNew (runTxs cap txs).clients tx.client).available < a <;>
          simp [process_transaction, htt, ham, hlt]
    case dispute =>
      cases hgb : (runTxs cap txs).processed_txs.get_by_tx tx.id with
      | none => simp [process_transaction, htt, hgb]
      | some d =>
        have hcont : mapContains (runTxs cap txs).clients d.client = true :=
          (hbuf d (get_by_tx_some_mem _ _ _ hgb)).2
        by_cases hkind : d.tx_type ≠ TransactionType.deposit ∧
            d.tx_type ≠ TransactionType.withdrawal
        · simp [process_transaction, htt, hgb, hcont, hkind]
        · cases ham : d.amount <;>
            simp [process_transaction, htt, hgb, hcont, hkind, ham]
    case resolve =>
      rcases hrm : mapRemove (runTxs cap txs).held_txs tx.id with ⟨m1, o⟩
      cases o with
      | none => simp [process_transaction, htt, hrm]
      | some d =>
        have hlk : mapLookup (runTxs cap txs).held_txs tx.id = some d := by
          have h2 := mapRemove_snd (runTxs cap txs).held_txs tx.id
          rw [hrm] at h2
          exact h2.symm
        obtain ⟨p, hp, hv, _⟩ := mapLookup_some_mem _ _ _ hlk
        have hcont : mapContains (runTxs cap txs).clients d.client = true :=
          hv ▸ (hheld p hp).2
        cases ham : d.amount <;>
          simp [process_transaction, htt, hrm, hcont, ham]
    case chargeback =>
      rcases hrm : mapRemove (runTxs cap txs).held_txs tx.id with ⟨m1, o⟩
      cases o with
      | none => simp [process_transaction, htt, hrm]
      | some d =>
        have hlk : mapLookup (runTxs cap txs).held_txs tx.id = some d := by
          have h2 := mapRemove_snd (runTxs cap txs).held_txs tx.id
          rw [hrm] at h2
          exact h2.symm
        obtain ⟨p, hp, hv, _⟩ := mapLookup_some_mem _ _ _ hlk
        have hcont : mapContains (runTxs cap txs).clients d.client = true :=
          hv ▸ (hheld p hp).2
        cases ham : d.amount <;>
          simp [process_transaction, htt, hrm, hcont, ham]

/-- C6 witness: after a deposit and a dispute of it, the registry entry for
id 1 names client 1, which is present in the ledger. -/
theorem unknown_account_unreachable_witness :
    mapContains (runTxs 10
      [⟨TransactionType.deposit, 1, 1, some 5⟩,
       ⟨TransactionType.dispute, 1, 1, none⟩]).clients
      (⟨TransactionType.deposit, 1, 1, some 5⟩ : Transaction).client = true :=
  (unknown_account_unreachable 10
    [⟨TransactionType.deposit, 1, 1, some 5⟩,
     ⟨TransactionType.dispute, 1, 1, none⟩]
    ⟨TransactionType.resolve, 1, 1, none⟩).2.1
    ⟨TransactionType.deposit, 1, 1, some 5⟩ rfl

/-- C10: on every reachable state, every buffer entry and every registry
value is a Deposit or Withdrawal with its amount present, and consequently
`process_transaction` can never reach the `unwrap`-on-`None` panic. -/
theorem settled_shape_invariant (cap : Nat) (txs : List Transaction) :
    (∀ t ∈ (runTxs cap txs).processed_txs.inside, SettledShape t) ∧
    (∀ k t, mapLookup (runTxs cap txs).held_txs k = some t → SettledShape t) ∧
    (∀ tx, (process_transaction tx (runTxs cap txs)).2 ≠ POut.unwrapNone) := by
  obtain ⟨hbuf, hheld⟩ := wf_runTxs cap txs
  refine ⟨fun t ht => (hbuf t ht).1, ?_, ?_⟩
  · intro k t hlk
    obtain ⟨p, hp, hv, _⟩ := mapLookup_some_mem _ _ _ hlk
    exact hv ▸ (hheld p hp).1
  · intro tx
    cases htt : tx.tx_type
    case deposit =>
      cases ham : tx.amount <;>
        simp [process_transaction, htt, ham]
    case withdrawal =>
      cases ham : tx.amount with
      | none => simp [process_transaction, htt, ham]
      | some a =>
        by_cases hlt : (getOrNew (runTxs cap txs).clients tx.client).available < a <;>
          simp [process_transaction, htt, ham, hlt]
    case dispute =>
      cases hgb : (runTxs cap txs).processed_txs.get_by_tx tx.id with
      | none => simp [process_transaction, htt, hgb]
      | some d =>
        have hshape := (hbuf d (get_by_tx_some_mem _ _ _ hgb)).1
        obtain ⟨a, ham⟩ := Option.isSome_iff_exists.mp hshape.2
        by_cases hcont : mapContains (runTxs cap txs).clients d.client
        · by_cases hkind : d.tx_type ≠ TransactionType.deposit ∧
              d.tx_type ≠ TransactionType.withdrawal
          · simp [process_transaction, htt, hgb, hcont, hkind]
          · simp [process_transaction, htt, hgb, hcont, hkind, ham]
        · simp [process_transaction, htt, hgb, hcont]
    case resolve =>
      rcases hrm : mapRemove (runTxs cap txs).held_txs tx.id with ⟨m1, o⟩
      cases o with
      | none => simp [process_transaction, htt, hrm]
      | some d =>
        have hlk : mapLookup (runTxs cap txs).held_txs tx.id = some d := by
          have h2 := mapRemove_snd (runTxs cap txs).held_txs tx.id
          rw [hrm] at h2
          exact h2.symm
        obtain ⟨p, hp, hv, _⟩ := mapLookup_some_mem _ _ _ hlk
        have hshape : SettledShape d := hv ▸ (hheld p hp).1
        obtain ⟨a, ham⟩ := Option.isSome_iff_exists.mp hshape.2
        by_cases hcont : mapContains (runTxs cap txs).clients d.client <;>
          simp [process_transaction, htt, hrm, hcont, ham]
    case chargeback =>
      rcases hrm : mapRemove (runTxs cap txs).held_txs tx.id with ⟨m1, o⟩
      cases o with
      | none => simp [process_transaction, htt, hrm]
      | some d =>
        have hlk : mapLookup (runTxs cap txs).held_txs tx.id = some d := by
          have h2 := mapRemove_snd (runTxs cap txs).held_txs tx.id
          rw [hrm] at h2
          exact h2.symm
        obtain ⟨p, hp, hv, _⟩ := mapLookup_some_mem _ _ _ hlk
        have hshape : SettledShape d := hv ▸ (hheld p hp).1
        obtain ⟨a, ham⟩ := Option.isSome_iff_exists.mp hshape.2
        by_cases hcont : mapContains (runTxs cap txs).clients d.client <;>
          simp [process_transaction, htt, hrm, hcont, ham]

/-- C10 witness: the registry value stored for id 1 after deposit-then-dispute
is a Deposit with its amount present. -/
theorem settled_shape_invariant_witness :
    SettledShape ⟨TransactionType.deposit, 1, 1, some 5⟩ :=
  (settled_shape_invariant 10
    [⟨TransactionType.deposit, 1, 1, some 5⟩,
     ⟨TransactionType.dispute, 1, 1, none⟩]).2.1 1
    ⟨TransactionType.deposit, 1, 1, some 5⟩ rfl

/-! ### Locked-flag monotonicity -/

theorem ledgerLocked_mapUpdate_preserve (m : List (Nat × Client)) (k : Nat)
    (f : Client → Client) (c : Nat)
    (hf : ∀ cl : Client, (f cl).locked = cl.locked) :
    ledgerLocked (mapUpdate m k f) c = ledgerLocked m c := by
  unfold ledgerLocked
  by_cases hc : c = k
  · subst hc
    rw [mapLookup_mapUpdate_self]
    cases mapLookup m c <;> simp [hf]
  · rw [mapLookup_mapUpdate_ne _ _ _ _ hc]

theorem ledgerLocked_mapUpdate_mono (m : List (Nat × Client)) (k : Nat)
    (f : Client → Client) (c : Nat)
    (hf : ∀ cl : Client, cl.locked = true → (f cl).locked = true)
    (h : ledgerLocked m c = true) :
    ledgerLocked (mapUpdate m k f) c = true := by
  unfold ledgerLocked at h ⊢
  by_cases hc : c = k
  · subst hc
    rw [mapLookup_mapUpdate_self]
    cases hl : mapLookup m c with
    | none => rw [hl] at h; simp at h
    | some cl =>
      rw [hl] at h
      exact hf cl h
  · rw [mapLookup_mapUpdate_ne _ _ _ _ hc]
    exact h

theorem ledgerLocked_getOrInsert (m : List (Nat × Client)) (k c : Nat) :
    ledgerLocked (getOrInsert m k) c = ledgerLocked m c := by
  unfold ledgerLocked
  by_cases hc : c = k
  · subst hc
    rw [mapLookup_getOrInsert_self]
    unfold getOrNew
    cases hl : mapLookup m c <;> simp [Client.new]
  · rw [mapLookup_getOrInsert_ne _ _ _ hc]

theorem locked_step_cases (s : ProcState) (tx : Transaction) (c : Nat) :
    (tx.tx_type = TransactionType.chargeback
      ∧ (process_transaction tx s).2 = POut.ok
      ∧ (isLocked s c = true → isLocked (process_transaction tx s).1 c = true))
    ∨ isLocked (process_transaction tx s).1 c = isLocked s c := by
  unfold isLocked
  cases htt : tx.tx_type
  case deposit =>
    right
    cases ham : tx.amount with
    | none =>
      have hcl : (process_transaction tx s).1.clients
          = getOrInsert s.clients tx.client := by
        simp [process_transaction, htt, ham]
      rw [hcl, ledgerLocked_getOrInsert]
    | some a =>
      have hcl : (process_transaction tx s).1.clients
          = mapUpdate (getOrInsert s.clients tx.client) tx.client
              (fun c => { c with available := c.available + a,
                                 total := c.total + a }) := by
        simp [process_transaction, htt, ham]
      have h1 := ledgerLocked_mapUpdate_preserve
        (getOrInsert s.clients tx.client) tx.client
        (fun c => { c with available := c.available + a, total := c.total + a })
        c (fun cl => rfl)
      rw [hcl, h1, ledgerLocked_getOrInsert]
  case withdrawal =>
    right
    cases ham : tx.amount with
    | none =>
      have hcl : (process_transaction tx s).1.clients
          = getOrInsert s.clients tx.client := by
        simp [process_transaction, htt, ham]
      rw [hcl, ledgerLocked_getOrInsert]
    | some a =>
      by_cases hlt : (getOrNew s.clients tx.client).available < a
      · have hcl : (process_transaction tx s).1.clients
            = getOrInsert s.clients tx.client := by
          simp [process_transaction, htt, ham, hlt]
        rw [hcl, ledgerLocked_getOrInsert]
      · have hcl : (process_transaction tx s).1.clients
            = mapUpdate (getOrInsert s.clients tx.client) tx.client
                (fun c => { c with available := c.available - a,
                                   total := c.total - a }) := by
          simp [process_transaction, htt, ham, hlt]
        have h1 := ledgerLocked_mapUpdate_preserve
          (getOrInsert s.clients tx.client) tx.client
          (fun c => { c with available := c.available - a, total := c.total - a })
          c (fun cl => rfl)
        rw [hcl, h1, ledgerLocked_getOrInsert]
  case dispute =>
    right
    cases hgb : s.processed_txs.get_by_tx tx.id with
    | none =>
      have hcl : (process_transaction tx s).1.clients = s.clients := by
        simp [process_transaction, htt, hgb]
      rw [hcl]
    | some d =>
      by_cases hcont : mapContains s.clients d.client
      · by_cases hkind : d.tx_type ≠ TransactionType.deposit ∧
            d.tx_type ≠ TransactionType.withdrawal
        · have hcl : (process_transaction tx s).1.clients = s.clients := by
            simp [process_transaction, htt, hgb, hcont, hkind]
          rw [hcl]
        · cases ham : d.amount with
          | none =>
            have hcl : (process_transaction tx s).1.clients = s.clients := by
              simp [process_transaction, htt, hgb, hcont, hkind, ham]
            rw [hcl]
          | some a =>
            have hcl : (process_transaction tx s).1.clients
                = mapUpdate s.clients d.client
                    (fun c => { c with available := c.available - a,
                                       held := c.held + a }) := by
              simp [process_transaction, htt, hgb, hcont, hkind, ham]
            have h1 := ledgerLocked_mapUpdate_preserve s.clients d.client
              (fun c => { c with available := c.available - a,
                                 held := c.held + a })
              c (fun cl => rfl)
            rw [hcl, h1]
      · have hcl : (process_transaction tx s).1.clients = s.clients := by
          simp [process_transaction, htt, hgb, hcont]
        rw [hcl]
  case resolve =>
    right
    rcases hrm : mapRemove s.held_txs tx.id with ⟨m1, o⟩
    cases o with
    | none =>
      have hcl : (process_transaction tx s).1.clients = s.clients := by
        simp [process_transaction, htt, hrm]
      rw [hcl]
    | some d =>
      by_cases hcont : mapContains s.clients d.client
      · cases ham : d.amount with
        | none =>
          have hcl : (process_transaction tx s).1.clients = s.clients := by
            simp [process_transaction, htt, hrm, hcont, ham]
          rw [hcl]
        | some a =>
          have hcl : (process_transaction tx s).1.clients
              = mapUpdate s.clients d.client
                  (fun c => { c with held := c.held - a,
                                     available := c.available + a }) := by
            simp [process_transaction, htt, hrm, hcont, ham]
          have h1 := ledgerLocked_mapUpdate_preserve s.clients d.client
            (fun c => { c with held := c.held - a,
                               available := c.available + a })
            c (fun cl => rfl)
          rw [hcl, h1]
      · have hcl : (process_transaction tx s).1.clients = s.clients := by
          simp [process_transaction, htt, hrm, hcont]
        rw [hcl]
  case chargeback =>
    rcases hrm : mapRemove s.held_txs tx.id with ⟨m1, o⟩
    cases o with
    | none =>
      right
      have hcl : (process_transaction tx s).1.clients = s.clients := by
        simp [process_transaction, htt, hrm]
      rw [hcl]
    | some d =>
      by_cases hcont : mapContains s.clients d.client
      · cases ham : d.amount with
        | none =>
          right
          have hcl : (process_transaction tx s).1.clients = s.clients := by
            simp [process_transaction, htt, hrm, hcont, ham]
          rw [hcl]
        | some a =>
          left
          have hout : (process_transaction tx s).2 = POut.ok := by
            simp [process_transaction, htt, hrm, hcont, ham]
          have hcl : (process_transaction tx s).1.clients
              = mapUpdate s.clients d.client
                  (fun c => { c with held := c.held - a,
                                     total := c.total - a,
                                     locked := true }) := by
            simp [process_transaction, htt, hrm, hcont, ham]
          refine ⟨rfl, hout, fun h => ?_⟩
          rw [hcl]
          exact ledgerLocked_mapUpdate_mono _ _ _ _ (fun cl _ => rfl) h
      · right
        have hcl : (process_transaction tx s).1.clients = s.clients := by
          simp [process_transaction, htt, hrm, hcont]
        rw [hcl]

/-- C7: accounts are created unlocked; once an account's locked flag is true
it remains true after any further transaction; and a step that turns the flag
from false to true is necessarily a successful Chargeback (no operation ever
resets the flag). -/
theorem locked_monotone (s : ProcState) (tx : Transaction) (c : Nat) :
    ((Client.new c).locked = false) ∧
    (isLocked s c = true → isLocked (process_transaction tx s).1 c = true) ∧
    ((tx.tx_type ≠ TransactionType.chargeback ∨
        (process_transaction tx s).2 ≠ POut.ok) →
      isLocked (process_transaction tx s).1 c = isLocked s c) := by
  refine ⟨rfl, ?_, ?_⟩
  · intro h
    rcases locked_step_cases s tx c with ⟨_, _, hmono⟩ | heq
    · exact hmono h
    · rw [heq]
      exact h
  · intro hne
    rcases locked_step_cases s tx c with ⟨htt, hok, _⟩ | heq
    · rcases hne with hne | hne
      · exact absurd htt hne
      · exact absurd hok hne
    · exact heq

/-- C7 witness: a locked account stays locked across a further deposit. -/
theorem locked_monotone_witness :
    isLocked (process_transaction ⟨TransactionType.deposit, 1, 2, some 5⟩
      ⟨[(1, { client := 1, available := 0, held := 0, total := 0,
              locked := true })],
       RingBuffer.with_capacity Transaction 10, []⟩).1 1 = true :=
  (locked_monotone
    ⟨[(1, { client := 1, available := 0, held := 0, total := 0,
            locked := true })],
     RingBuffer.with_capacity Transaction 10, []⟩
    ⟨TransactionType.deposit, 1, 2, some 5⟩ 1).2.1 rfl

/-! ### Double disputes -/

/-- C2 counterexample: with transaction 5 already under dispute (registry key
5 present), a second Dispute of id 5 returns Ok and moves the amount from
available to held again, contradicting "must fail and change no balances". -/
theorem second_dispute_not_rejected :
    (process_transaction ⟨TransactionType.dispute, 1, 5, none⟩
      (runTxs 10 [⟨TransactionType.deposit, 1, 5, some 10⟩,
                  ⟨TransactionType.dispute, 1, 5, none⟩])).2 = POut.ok ∧
    mapLookup (process_transaction ⟨TransactionType.dispute, 1, 5, none⟩
      (runTxs 10 [⟨TransactionType.deposit, 1, 5, some 10⟩,
                  ⟨TransactionType.dispute, 1, 5, none⟩])).1.clients 1
      ≠ mapLookup (runTxs 10 [⟨TransactionType.deposit, 1, 5, some 10⟩,
                  ⟨TransactionType.dispute, 1, 5, none⟩]).clients 1 := by
  constructor
  · rfl
  · have h1 : mapLookup (process_transaction ⟨TransactionType.dispute, 1, 5, none⟩
        (runTxs 10 [⟨TransactionType.deposit, 1, 5, some 10⟩,
                    ⟨TransactionType.dispute, 1, 5, none⟩])).1.clients 1
        = some { client := 1, available := 0 + 10 - 10 - 10,
                 held := 0 + 10 + 10, total := 0 + 10, locked := false } := rfl
    have h2 : mapLookup (runTxs 10 [⟨TransactionType.deposit, 1, 5, some 10⟩,
                  ⟨TransactionType.dispute, 1, 5, none⟩]).clients 1
        = some { client := 1, available := 0 + 10 - 10,
                 held := 0 + 10, total := 0 + 10, locked := false } := rfl
    rw [h1, h2]
    intro hcontra
    simp only [Option.some.injEq, Client.mk.injEq] at hcontra
    obtain ⟨_, hav, _, _⟩ := hcontra
    norm_num at hav

/-- C2 (amended): a second Dispute referencing an actively disputed id is not
rejected: as long as the referenced transaction is still findable in the
lookback buffer (kind Deposit/Withdrawal, amount present, owning account in
the ledger), the Dispute succeeds again even though the id is already a key of
the registry, moving the amount from available to held once more and
overwriting the registry entry. -/
theorem second_dispute_succeeds (s : ProcState) (tx : Transaction)
    (htx : tx.tx_type = TransactionType.dispute)
    (d : Transaction) (hbuf : s.processed_txs.get_by_tx tx.id = some d)
    (hkind : d.tx_type = TransactionType.deposit ∨
      d.tx_type = TransactionType.withdrawal)
    (a : Rat) (ham : d.amount = some a)
    (cl : Client) (hcl : mapLookup s.clients d.client = some cl)
    (hactive : mapLookup s.held_txs tx.id ≠ none) :
    (process_transaction tx s).2 = POut.ok ∧
    mapLookup (process_transaction tx s).1.clients d.client
      = some { cl with available := cl.available - a, held := cl.held + a } ∧
    mapLookup (process_transaction tx s).1.held_txs tx.id = some d := by
  have hcont : mapContains s.clients d.client = true := by
    rw [mapContains_eq_isSome, hcl]
    rfl
  have hkind2 : ¬(d.tx_type ≠ TransactionType.deposit ∧
      d.tx_type ≠ TransactionType.withdrawal) := by
    rcases hkind with hk | hk
    · exact fun hc => hc.1 hk
    · exact fun hc => hc.2 hk
  have hcl2 : (process_transaction tx s).1.clients
      = mapUpdate s.clients d.client
          (fun c => { c with available := c.available - a,
                             held := c.held + a }) := by
    simp [process_transaction, htx, hbuf, hcont, hkind2, ham]
  have hhe : (process_transaction tx s).1.held_txs
      = mapInsert s.held_txs tx.id d := by
    simp [process_transaction, htx, hbuf, hcont, hkind2, ham]
  have hout : (process_transaction tx s).2 = POut.ok := by
    simp [process_transaction, htx, hbuf, hcont, hkind2, ham]
  refine ⟨hout, ?_, ?_⟩
  · rw [hcl2, mapLookup_mapUpdate_self, hcl]
    rfl
  · rw [hhe, mapLookup_mapInsert_self]

/-- C2 witness: concrete state with deposit 5 in the buffer, already disputed
(registry key 5), account 1 present; the second Dispute succeeds and re-holds
the amount. -/
theorem second_dispute_succeeds_witness :
    (process_transaction ⟨TransactionType.dispute, 1, 5, none⟩
      ⟨[(1, { client := 1, available := 10, held := 10, total := 20,
              locked := false })],
       ⟨10, [⟨TransactionType.deposit, 1, 5, some 10⟩]⟩,
       [(5, ⟨TransactionType.deposit, 1, 5, some 10⟩)]⟩).2 = POut.ok ∧
    mapLookup (process_transaction ⟨TransactionType.dispute, 1, 5, none⟩
      ⟨[(1, { client := 1, available := 10, held := 10, total := 20,
              locked := false })],
       ⟨10, [⟨TransactionType.deposit, 1, 5, some 10⟩]⟩,
       [(5, ⟨TransactionType.deposit, 1, 5, some 10⟩)]⟩).1.clients 1
      = some { client := 1, available := 10 - 10, held := 10 + 10,
               total := 20, locked := false } ∧
    mapLookup (process_transaction ⟨TransactionType.dispute, 1, 5, none⟩
      ⟨[(1, { client := 1, available := 10, held := 10, total := 20,
              locked := false })],
       ⟨10, [⟨TransactionType.deposit, 1, 5, some 10⟩]⟩,
       [(5, ⟨TransactionType.deposit, 1, 5, some 10⟩)]⟩).1.held_txs 5
      = some ⟨TransactionType.deposit, 1, 5, some 10⟩ :=
  second_dispute_succeeds
    ⟨[(1, { client := 1, available := 10, held := 10, total := 20,
            locked := false })],
     ⟨10, [⟨TransactionType.deposit, 1, 5, some 10⟩]⟩,
     [(5, ⟨TransactionType.deposit, 1, 5, some 10⟩)]⟩
    ⟨TransactionType.dispute, 1, 5, none⟩ rfl
    ⟨TransactionType.deposit, 1, 5, some 10⟩ rfl (Or.inl rfl)
    10 rfl
    { client := 1, available := 10, held := 10, total := 20, locked := false }
    rfl (by decide)

/-! ### Error atomicity -/

theorem mapLookup_getOrInsert_cases (m : List (Nat × Client)) (k c : Nat) :
    mapLookup (getOrInsert m k) c = mapLookup m c ∨
      (c = k ∧ mapLookup m k = none ∧
        mapLookup (getOrInsert m k) c = some (Client.new k)) := by
  by_cases hc : c = k
  · subst hc
    cases hl : mapLookup m c with
    | some cl =>
      left
      rw [mapLookup_getOrInsert_self, getOrNew, hl]
    | none =>
      right
      refine ⟨rfl, rfl, ?_⟩
      rw [mapLookup_getOrInsert_self, getOrNew, hl]
  · left
    exact mapLookup_getOrInsert_ne m k c hc

/-- C1 counterexample: a Deposit with a missing amount fails with
MissingAmount yet mutates the ledger, creating the previously absent account
of its client. -/
theorem deposit_missing_amount_creates_account :
    (process_transaction ⟨TransactionType.deposit, 7, 1, none⟩
      (initState 10000)).2 = POut.err PErr.missingAmount ∧
    (process_transaction ⟨TransactionType.deposit, 7, 1, none⟩
      (initState 10000)).1.clients ≠ (initState 10000).clients := by
  constructor
  · rfl
  · decide

/-- C1 (amended): when `process_transaction` returns an error, the lookback
buffer is untouched and no existing account's record changes; however (a) a
Deposit or Withdrawal failing with MissingAmount or InsufficientFunds has
already run `entry().or_insert_with(Client::new)`, so a previously absent
account of the transaction's client is created zero-initialized, and (b) a
Resolve or Chargeback failing with UnknownAccount has already removed the
registry entry for the transaction id; in all other error cases the registry
is unchanged. -/
theorem error_atomicity (s : ProcState) (tx : Transaction) (s' : ProcState)
    (e : PErr) (h : process_transaction tx s = (s', POut.err e)) :
    s'.processed_txs = s.processed_txs ∧
    (∀ c, mapLookup s'.clients c = mapLookup s.clients c ∨
      (c = tx.client ∧ mapLookup s.clients c = none ∧
        mapLookup s'.clients c = some (Client.new c))) ∧
    (s'.held_txs = s.held_txs ∨
      (e = PErr.unknownAccount ∧
        s'.held_txs = (mapRemove s.held_txs tx.id).1)) := by
  cases htt : tx.tx_type
  case deposit =>
    cases ham : tx.amount with
    | none =>
      have hres : process_transaction tx s
          = ({ s with clients := getOrInsert s.clients tx.client },
             POut.err PErr.missingAmount) := by
        simp [process_transaction, htt, ham]
      rw [hres] at h
      have hs' : s' = { s with clients := getOrInsert s.clients tx.client } :=
        (congrArg Prod.fst h).symm
      subst hs'
      refine ⟨rfl, ?_, Or.inl rfl⟩
      intro c
      rcases mapLookup_getOrInsert_cases s.clients tx.client c with
        hcase | ⟨hck, hnone, hsome⟩
      · exact Or.inl hcase
      · subst hck
        exact Or.inr ⟨rfl, hnone, hsome⟩
    | some a =>
      have hres : (process_transaction tx s).2 = POut.ok := by
        simp [process_transaction, htt, ham]
      rw [h] at hres
      simp at hres
  case withdrawal =>
    cases ham : tx.amount with
    | none =>
      have hres : process_transaction tx s
          = ({ s with clients := getOrInsert s.clients tx.client },
             POut.err PErr.missingAmount) := by
        simp [process_transaction, htt, ham]
      rw [hres] at h
      have hs' : s' = { s with clients := getOrInsert s.clients tx.client } :=
        (congrArg Prod.fst h).symm
      subst hs'
      refine ⟨rfl, ?_, Or.inl rfl⟩
      intro c
      rcases mapLookup_getOrInsert_cases s.clients tx.client c with
        hcase | ⟨hck, hnone, hsome⟩
      · exact Or.inl hcase
      · subst hck
        exact Or.inr ⟨rfl, hnone, hsome⟩
    | some a =>
      by_cases hlt : (getOrNew s.clients tx.client).available < a
      · have hres : process_transaction tx s
            = ({ s with clients := getOrInsert s.clients tx.client },
               POut.err PErr.insufficientFunds) := by
          simp [process_transaction, htt, ham, hlt]
        rw [hres] at h
        have hs' : s' = { s with clients := getOrInsert s.clients tx.client } :=
          (congrArg Prod.fst h).symm
        subst hs'
        refine ⟨rfl, ?_, Or.inl rfl⟩
        intro c
        rcases mapLookup_getOrInsert_cases s.clients tx.client c with
          hcase | ⟨hck, hnone, hsome⟩
        · exact Or.inl hcase
        · subst hck
          exact Or.inr ⟨rfl, hnone, hsome⟩
      · have hres : (process_transaction tx s).2 = POut.ok := by
          simp [process_transaction, htt, ham, hlt]
        rw [h] at hres
        simp at hres
  case dispute =>
    cases hgb : s.processed_txs.get_by_tx tx.id with
    | none =>
      have hres : process_transaction tx s
          = (s, POut.err PErr.unknownTransaction) := by
        simp [process_transaction, htt, hgb]
      rw [hres] at h
      have hs' : s' = s := (congrArg Prod.fst h).symm
      subst hs'
      exact ⟨rfl, fun c => Or.inl rfl, Or.inl rfl⟩
    | some d =>
      by_cases hcont : mapContains s.clients d.client
      · by_cases hkind : d.tx_type ≠ TransactionType.deposit ∧
            d.tx_type ≠ TransactionType.withdrawal
        · have hres : process_transaction tx s
              = (s, POut.err PErr.invalidDisputeTarget) := by
            simp [process_transaction, htt, hgb, hcont, hkind]
          rw [hres] at h
          have hs' : s' = s := (congrArg Prod.fst h).symm
          subst hs'
          exact ⟨rfl, fun c => Or.inl rfl, Or.inl rfl⟩
        · cases ham : d.amount with
          | none =>
            have hres : (process_transaction tx s).2 = POut.unwrapNone := by
              simp [process_transaction, htt, hgb, hcont, hkind, ham]
            rw [h] at hres
            simp at hres
          | some a =>
            have hres : (process_transaction tx s).2 = POut.ok := by
              simp [process_transaction, htt, hgb, hcont, hkind, ham]
            rw [h] at hres
            simp at hres
      · have hres : process_transaction tx s
            = (s, POut.err PErr.unknownAccount) := by
          simp [process_transaction, htt, hgb, hcont]
        rw [hres] at h
        have hs' : s' = s := (congrArg Prod.fst h).symm
        subst hs'
        exact ⟨rfl, fun c => Or.inl rfl, Or.inl rfl⟩
  case resolve =>
    rcases hrm : mapRemove s.held_txs tx.id with ⟨m1, o⟩
    have hm1 : m1 = (mapRemove s.held_txs tx.id).1 := by rw [hrm]
    cases o with
    | none =>
      have hres : process_transaction tx s
          = (s, POut.err PErr.unknownDispute) := by
        simp [process_transaction, htt, hrm]
      rw [hres] at h
      have hs' : s' = s := (congrArg Prod.fst h).symm
      subst hs'
      exact ⟨rfl, fun c => Or.inl rfl, Or.inl rfl⟩
    | some d =>
      by_cases hcont : mapContains s.clients d.client
      · cases ham : d.amount with
        | none =>
          have hres : (process_transaction tx s).2 = POut.unwrapNone := by
            simp [process_transaction, htt, hrm, hcont, ham]
          rw [h] at hres
          simp at hres
        | some a =>
          have hres : (process_transaction tx s).2 = POut.ok := by
            simp [process_transaction, htt, hrm, hcont, ham]
          rw [h] at hres
          simp at hres
      · have hres : process_transaction tx s
            = ({ s with held_txs := m1 }, POut.err PErr.unknownAccount) := by
          simp [process_transaction, htt, hrm, hcont]
        rw [hres] at h
        have hs' : s' = { s with held_txs := m1 } :=
          (congrArg Prod.fst h).symm
        have he2 : POut.err PErr.unknownAccount = POut.err e :=
          congrArg Prod.snd h
        injection he2 with he3
        subst hs'
        refine ⟨rfl, fun c => Or.inl rfl, Or.inr ⟨he3.symm, ?_⟩⟩
        rfl
  case chargeback =>
    rcases hrm : mapRemove s.held_txs tx.id with ⟨m1, o⟩
    have hm1 : m1 = (mapRemove s.held_txs tx.id).1 := by rw [hrm]
    cases o with
    | none =>
      have hres : process_transaction tx s
          = (s, POut.err PErr.unknownDispute) := by
        simp [process_transaction, htt, hrm]
      rw [hres] at h
      have hs' : s' = s := (congrArg Prod.fst h).symm
      subst hs'
      exact ⟨rfl, fun c => Or.inl rfl, Or.inl rfl⟩
    | some d =>
      by_cases hcont : mapContains s.clients d.client
      · cases ham : d.amount with
        | none =>
          have hres : (process_transaction tx s).2 = POut.unwrapNone := by
            simp [process_transaction, htt, hrm, hcont, ham]
          rw [h] at hres
          simp at hres
        | some a =>
          have hres : (process_transaction tx s).2 = POut.ok := by
            simp [process_transaction, htt, hrm, hcont, ham]
          rw [h] at hres
          simp at hres
      · have hres : process_transaction tx s
            = ({ s with held_txs := m1 }, POut.err PErr.unknownAccount) := by
          simp [process_transaction, htt, hrm, hcont]
        rw [hres] at h
        have hs' : s' = { s with held_txs := m1 } :=
          (congrArg Prod.fst h).symm
        have he2 : POut.err PErr.unknownAccount = POut.err e :=
          congrArg Prod.snd h
        injection he2 with he3
        subst hs'
        refine ⟨rfl, fun c => Or.inl rfl, Or.inr ⟨he3.symm, ?_⟩⟩
        rfl

/-- C1 witness: a Deposit with a missing amount applied to the empty state —
the amended description holds, with the client-7 account freshly created. -/
theorem error_atomicity_witness :
    mapLookup ([(7, Client.new 7)] : List (Nat × Client)) 7
      = mapLookup ([] : List (Nat × Client)) 7 ∨
    (7 = 7 ∧ mapLookup ([] : List (Nat × Client)) 7 = none ∧
      mapLookup ([(7, Client.new 7)] : List (Nat × Client)) 7
        = some (Client.new 7)) :=
  (error_atomicity (initState 4) ⟨TransactionType.deposit, 7, 1, none⟩
    ⟨[(7, Client.new 7)], RingBuffer.with_capacity Transaction 4, []⟩
    PErr.missingAmount (by decide)).2.1 7

/-! ### Locked-flag non-interference -/

theorem clientSim_refl (a : Client) : ClientSim a a := ⟨rfl, rfl, rfl, rfl⟩

theorem ledgerSim_lookup (m₁ m₂ : List (Nat × Client)) (h : LedgerSim m₁ m₂)
    (k : Nat) :
    (mapLookup m₁ k = none ∧ mapLookup m₂ k = none) ∨
    (∃ a b, mapLookup m₁ k = some a ∧ mapLookup m₂ k = some b
      ∧ ClientSim a b) := by
  induction h with
  | nil => exact Or.inl ⟨rfl, rfl⟩
  | cons hpq hrest ih =>
    rename_i p q m₁' m₂'
    obtain ⟨hk, hsim⟩ := hpq
    rw [mapLookup_cons, mapLookup_cons]
    by_cases hc : p.1 = k
    · have hc2 : q.1 = k := hk.symm.trans hc
      rw [if_pos hc, if_pos hc2]
      exact Or.inr ⟨p.2, q.2, rfl, rfl, hsim⟩
    · have hc2 : ¬q.1 = k := fun hq => hc (hk.trans hq)
      rw [if_neg hc, if_neg hc2]
      exact ih

theorem ledgerSim_contains (m₁ m₂ : List (Nat × Client)) (h : LedgerSim m₁ m₂)
    (k : Nat) : mapContains m₁ k = mapContains m₂ k := by
  rw [mapContains_eq_isSome, mapContains_eq_isSome]
  rcases ledgerSim_lookup m₁ m₂ h k with ⟨h1, h2⟩ | ⟨a, b, h1, h2, _⟩ <;>
    rw [h1, h2] <;> rfl

theorem ledgerSim_getOrNew (m₁ m₂ : List (Nat × Client)) (h : LedgerSim m₁ m₂)
    (k : Nat) : ClientSim (getOrNew m₁ k) (getOrNew m₂ k) := by
  unfold getOrNew
  rcases ledgerSim_lookup m₁ m₂ h k with ⟨h1, h2⟩ | ⟨a, b, h1, h2, hsim⟩ <;>
    rw [h1, h2]
  · exact clientSim_refl _
  · exact hsim

theorem ledgerSim_getOrInsert (m₁ m₂ : List (Nat × Client))
    (h : LedgerSim m₁ m₂) (k : Nat) :
    LedgerSim (getOrInsert m₁ k) (getOrInsert m₂ k) := by
  unfold getOrInsert
  rw [ledgerSim_contains m₁ m₂ h k]
  by_cases hc : mapContains m₂ k
  · rw [if_pos hc, if_pos hc]
    exact h
  · rw [if_neg hc, if_neg hc]
    exact List.rel_append h
      (List.Forall₂.cons ⟨rfl, clientSim_refl _⟩ List.Forall₂.nil)

theorem ledgerSim_mapUpdate (m₁ m₂ : List (Nat × Client))
    (h : LedgerSim m₁ m₂) (k : Nat) (f g : Client → Client)
    (hfg : ∀ a b, ClientSim a b → ClientSim (f a) (g b)) :
    LedgerSim (mapUpdate m₁ k f) (mapUpdate m₂ k g) := by
  induction h with
  | nil => exact List.Forall₂.nil
  | cons hpq hrest ih =>
    rename_i p q m₁' m₂'
    obtain ⟨hk, hsim⟩ := hpq
    rw [mapUpdate_cons, mapUpdate_cons]
    by_cases hc : p.1 = k
    · have hc2 : q.1 = k := hk.symm.trans hc
      rw [if_pos hc, if_pos hc2]
      exact List.Forall₂.cons ⟨hk, hfg p.2 q.2 hsim⟩ ih
    · have hc2 : ¬q.1 = k := fun hq => hc (hk.trans hq)
      rw [if_neg hc, if_neg hc2]
      exact List.Forall₂.cons ⟨hk, hsim⟩ ih

/-- C8: for two states identical except for locked flags, the same transaction
yields the same outcome and result states again identical except for locked
flags: no transaction kind is blocked or behaves differently because an
account is locked. -/
theorem locked_flag_noninterference (s₁ s₂ : ProcState) (tx : Transaction)
    (h : StateSim s₁ s₂) :
    (process_transaction tx s₁).2 = (process_transaction tx s₂).2 ∧
    StateSim (process_transaction tx s₁).1 (process_transaction tx s₂).1 := by
  obtain ⟨hled, hbuf, hheld⟩ := h
  cases htt : tx.tx_type
  case deposit =>
    cases ham : tx.amount with
    | none =>
      have e1 : process_transaction tx s₁
          = ({ s₁ with clients := getOrInsert s₁.clients tx.client },
             POut.err PErr.missingAmount) := by
        simp [process_transaction, htt, ham]
      have e2 : process_transaction tx s₂
          = ({ s₂ with clients := getOrInsert s₂.clients tx.client },
             POut.err PErr.missingAmount) := by
        simp [process_transaction, htt, ham]
      rw [e1, e2]
      exact ⟨rfl, ledgerSim_getOrInsert _ _ hled tx.client, hbuf, hheld⟩
    | some a =>
      have e1 : process_transaction tx s₁
          = ({ s₁ with
               clients := mapUpdate (getOrInsert s₁.clients tx.client)
                 tx.client (fun c => { c with available := c.available + a,
                                              total := c.total + a }),
               processed_txs := s₁.processed_txs.push tx }, POut.ok) := by
        simp [process_transaction, htt, ham]
      have e2 : process_transaction tx s₂
          = ({ s₂ with
               clients := mapUpdate (getOrInsert s₂.clients tx.client)
                 tx.client (fun c => { c with available := c.available + a,
                                              total := c.total + a }),
               processed_txs := s₂.processed_txs.push tx }, POut.ok) := by
        simp [process_transaction, htt, ham]
      rw [e1, e2]
      refine ⟨rfl, ?_, ?_, hheld⟩
      · exact ledgerSim_mapUpdate _ _
          (ledgerSim_getOrInsert _ _ hled tx.client) tx.client
          (fun c => { c with available := c.available + a,
                               total := c.total + a })
          (fun c => { c with available := c.available + a,
                               total := c.total + a })
          (fun x y hxy => ⟨hxy.1,
            by show x.available + a = y.available + a; rw [hxy.2.1],
            hxy.2.2.1,
            by show x.total + a = y.total + a; rw [hxy.2.2.2]⟩)
      · show s₁.processed_txs.push tx = s₂.processed_txs.push tx
        rw [hbuf]
  case withdrawal =>
    cases ham : tx.amount with
    | none =>
      have e1 : process_transaction tx s₁
          = ({ s₁ with clients := getOrInsert s₁.clients tx.client },
             POut.err PErr.missingAmount) := by
        simp [process_transaction, htt, ham]
      have e2 : process_transaction tx s₂
          = ({ s₂ with clients := getOrInsert s₂.clients tx.client },
             POut.err PErr.missingAmount) := by
        simp [process_transaction, htt, ham]
      rw [e1, e2]
      exact ⟨rfl, ledgerSim_getOrInsert _ _ hled tx.client, hbuf, hheld⟩
    | some a =>
      have hav : (getOrNew s₁.clients tx.client).available
          = (getOrNew s₂.clients tx.client).available :=
        (ledgerSim_getOrNew _ _ hled tx.client).2.1
      by_cases hlt : (getOrNew s₂.clients tx.client).available < a
      · have hlt1 : (getOrNew s₁.clients tx.client).available < a := by
          rw [hav]
          exact hlt
        have e1 : process_transaction tx s₁
            = ({ s₁ with clients := getOrInsert s₁.clients tx.client },
               POut.err PErr.insufficientFunds) := by
          simp [process_transaction, htt, ham, hlt1]
        have e2 : process_transaction tx s₂
            = ({ s₂ with clients := getOrInsert s₂.clients tx.client },
               POut.err PErr.insufficientFunds) := by
          simp [process_transaction, htt, ham, hlt]
        rw [e1, e2]
        exact ⟨rfl, ledgerSim_getOrInsert _ _ hled tx.client, hbuf, hheld⟩
      · have hlt1 : ¬(getOrNew s₁.clients tx.client).available < a := by
          rw [hav]
          exact hlt
        have e1 : process_transaction tx s₁
            = ({ s₁ with
                 clients := mapUpdate (getOrInsert s₁.clients tx.client)
                   tx.client (fun c => { c with available := c.available - a,
                                                total := c.total - a }),
                 processed_txs := s₁.processed_txs.push tx }, POut.ok) := by
          simp [process_transaction, htt, ham, hlt1]
        have e2 : process_transaction tx s₂
            = ({ s₂ with
                 clients := mapUpdate (getOrInsert s₂.clients tx.client)
                   tx.client (fun c => { c with available := c.available - a,
                                                total := c.total - a }),
                 processed_txs := s₂.processed_txs.push tx }, POut.ok) := by
          simp [process_transaction, htt, ham, hlt]
        rw [e1, e2]
        refine ⟨rfl, ?_, ?_, hheld⟩
        · exact ledgerSim_mapUpdate _ _
            (ledgerSim_getOrInsert _ _ hled tx.client) tx.client
            (fun c => { c with available := c.available - a,
                                 total := c.total - a })
            (fun c => { c with available := c.available - a,
                                 total := c.total - a })
            (fun x y hxy => ⟨hxy.1,
              by show x.available - a = y.available - a; rw [hxy.2.1],
              hxy.2.2.1,
              by show x.total - a = y.total - a; rw [hxy.2.2.2]⟩)
        · show s₁.processed_txs.push tx = s₂.processed_txs.push tx
          rw [hbuf]
  case dispute =>
    have hgbe : s₁.processed_txs.get_by_tx tx.id
        = s₂.processed_txs.get_by_tx tx.id := by
      rw [hbuf]
    cases hgb : s₂.processed_txs.get_by_tx tx.id with
    | none =>
      have hgb1 : s₁.processed_txs.get_by_tx tx.id = none := hgbe.trans hgb
      have e1 : process_transaction tx s₁
          = (s₁, POut.err PErr.unknownTransaction) := by
        simp [process_transaction, htt, hgb1]
      have e2 : process_transaction tx s₂
          = (s₂, POut.err PErr.unknownTransaction) := by
        simp [process_transaction, htt, hgb]
      rw [e1, e2]
      exact ⟨rfl, hled, hbuf, hheld⟩
    | some d =>
      have hgb1 : s₁.processed_txs.get_by_tx tx.id = some d := hgbe.trans hgb
      have hconte : mapContains s₁.clients d.client
          = mapContains s₂.clients d.client :=
        ledgerSim_contains _ _ hled d.client
      by_cases hcont : mapContains s₂.clients d.client
      · have hcont1 : mapContains s₁.clients d.client = true := by
          rw [hconte]
          exact hcont
        by_cases hkind : d.tx_type ≠ TransactionType.deposit ∧
            d.tx_type ≠ TransactionType.withdrawal
        · have e1 : process_transaction tx s₁
              = (s₁, POut.err PErr.invalidDisputeTarget) := by
            simp [process_transaction, htt, hgb1, hcont1, hkind]
          have e2 : process_transaction tx s₂
              = (s₂, POut.err PErr.invalidDisputeTarget) := by
            simp [process_transaction, htt, hgb, hcont, hkind]
          rw [e1, e2]
          exact ⟨rfl, hled, hbuf, hheld⟩
        · cases ham : d.amount with
          | none =>
            have e1 : process_transaction tx s₁ = (s₁, POut.unwrapNone) := by
              simp [process_transaction, htt, hgb1, hcont1, hkind, ham]
            have e2 : process_transaction tx s₂ = (s₂, POut.unwrapNone) := by
              simp [process_transaction, htt, hgb, hcont, hkind, ham]
            rw [e1, e2]
            exact ⟨rfl, hled, hbuf, hheld⟩
          | some a =>
            have e1 : process_transaction tx s₁
                = ({ s₁ with
                     clients := mapUpdate s₁.clients d.client
                       (fun c => { c with available := c.available - a,
                                          held := c.held + a }),
                     held_txs := mapInsert s₁.held_txs tx.id d },
                   POut.ok) := by
              simp [process_transaction, htt, hgb1, hcont1, hkind, ham]
            have e2 : process_transaction tx s₂
                = ({ s₂ with
                     clients := mapUpdate s₂.clients d.client
                       (fun c => { c with available := c.available - a,
                                          held := c.held + a }),
                     held_txs := mapInsert s₂.held_txs tx.id d },
                   POut.ok) := by
              simp [process_transaction, htt, hgb, hcont, hkind, ham]
            rw [e1, e2]
            refine ⟨rfl, ?_, hbuf, ?_⟩
            · exact ledgerSim_mapUpdate _ _ hled d.client
                (fun c => { c with available := c.available - a,
                                   held := c.held + a })
                (fun c => { c with available := c.available - a,
                                   held := c.held + a })
                (fun x y hxy => ⟨hxy.1,
                  by show x.available - a = y.available - a; rw [hxy.2.1],
                  by show x.held + a = y.held + a; rw [hxy.2.2.1],
                  hxy.2.2.2⟩)
            · show mapInsert s₁.held_txs tx.id d
                = mapInsert s₂.held_txs tx.id d
              rw [hheld]
      · have hcont1 : ¬mapContains s₁.clients d.client = true := by
          rw [hconte]
          exact hcont
        have e1 : process_transaction tx s₁
            = (s₁, POut.err PErr.unknownAccount) := by
          simp [process_transaction, htt, hgb1, hcont1]
        have e2 : process_transaction tx s₂
            = (s₂, POut.err PErr.unknownAccount) := by
          simp [process_transaction, htt, hgb, hcont]
        rw [e1, e2]
        exact ⟨rfl, hled, hbuf, hheld⟩
  case resolve =>
    have hrme : mapRemove s₁.held_txs tx.id = mapRemove s₂.held_txs tx.id := by
      rw [hheld]
    rcases hrm : mapRemove s₂.held_txs tx.id with ⟨m1, o⟩
    have hrm1 : mapRemove s₁.held_txs tx.id = (m1, o) := hrme.trans hrm
    cases o with
    | none =>
      have e1 : process_transaction tx s₁
          = (s₁, POut.err PErr.unknownDispute) := by
        simp [process_transaction, htt, hrm1]
      have e2 : process_transaction tx s₂
          = (s₂, POut.err PErr.unknownDispute) := by
        simp [process_transaction, htt, hrm]
      rw [e1, e2]
      exact ⟨rfl, hled, hbuf, hheld⟩
    | some d =>
      have hconte : mapContains s₁.clients d.client
          = mapContains s₂.clients d.client :=
        ledgerSim_contains _ _ hled d.client
      by_cases hcont : mapContains s₂.clients d.client
      · have hcont1 : mapContains s₁.clients d.client = true := by
          rw [hconte]
          exact hcont
        cases ham : d.amount with
        | none =>
          have e1 : process_transaction tx s₁ = (s₁, POut.unwrapNone) := by
            simp [process_transaction, htt, hrm1, hcont1, ham]
          have e2 : process_transaction tx s₂ = (s₂, POut.unwrapNone) := by
            simp [process_transaction, htt, hrm, hcont, ham]
          rw [e1, e2]
          exact ⟨rfl, hled, hbuf, hheld⟩
        | some a =>
          have e1 : process_transaction tx s₁
              = ({ s₁ with
                   clients := mapUpdate s₁.clients d.client
                     (fun c => { c with held := c.held - a,
                                        available := c.available + a }),
                   held_txs := (mapRemove m1 d.id).1 }, POut.ok) := by
            simp [process_transaction, htt, hrm1, hcont1, ham]
          have e2 : process_transaction tx s₂
              = ({ s₂ with
                   clients := mapUpdate s₂.clients d.client
                     (fun c => { c with held := c.held - a,
                                        available := c.available + a }),
                   held_txs := (mapRemove m1 d.id).1 }, POut.ok) := by
            simp [process_transaction, htt, hrm, hcont, ham]
          rw [e1, e2]
          refine ⟨rfl, ?_, hbuf, rfl⟩
          exact ledgerSim_mapUpdate _ _ hled d.client
            (fun c => { c with held := c.held - a,
                               available := c.available + a })
            (fun c => { c with held := c.held - a,
                               available := c.available + a })
            (fun x y hxy => ⟨hxy.1,
              by show x.available + a = y.available + a; rw [hxy.2.1],
              by show x.held - a = y.held - a; rw [hxy.2.2.1],
              hxy.2.2.2⟩)
      · have hcont1 : ¬mapContains s₁.clients d.client = true := by
          rw [hconte]
          exact hcont
        have e1 : process_transaction tx s₁
            = ({ s₁ with held_txs := m1 }, POut.err PErr.unknownAccount) := by
          simp [process_transaction, htt, hrm1, hcont1]
        have e2 : process_transaction tx s₂
            = ({ s₂ with held_txs := m1 }, POut.err PErr.unknownAccount) := by
          simp [process_transaction, htt, hrm, hcont]
        rw [e1, e2]
        exact ⟨rfl, hled, hbuf, rfl⟩
  case chargeback =>
    have hrme : mapRemove s₁.held_txs tx.id = mapRemove s₂.held_txs tx.id := by
      rw [hheld]
    rcases hrm : mapRemove s₂.held_txs tx.id with ⟨m1, o⟩
    have hrm1 : mapRemove s₁.held_txs tx.id = (m1, o) := hrme.trans hrm
    cases o with
    | none =>
      have e1 : process_transaction tx s₁
          = (s₁, POut.err PErr.unknownDispute) := by
        simp [process_transaction, htt, hrm1]
      have e2 : process_transaction tx s₂
          = (s₂, POut.err PErr.unknownDispute) := by
        simp [process_transaction, htt, hrm]
      rw [e1, e2]
      exact ⟨rfl, hled, hbuf, hheld⟩
    | some d =>
      have hconte : mapContains s₁.clients d.client
          = mapContains s₂.clients d.client :=
        ledgerSim_contains _ _ hled d.client
      by_cases hcont : mapContains s₂.clients d.client
      · have hcont1 : mapContains s₁.clients d.client = true := by
          rw [hconte]
          exact hcont
        cases ham : d.amount with
        | none =>
          have e1 : process_transaction tx s₁ = (s₁, POut.unwrapNone) := by
            simp [process_transaction, htt, hrm1, hcont1, ham]
          have e2 : process_transaction tx s₂ = (s₂, POut.unwrapNone) := by
            simp [process_transaction, htt, hrm, hcont, ham]
          rw [e1, e2]
          exact ⟨rfl, hled, hbuf, hheld⟩
        | some a =>
          have e1 : process_transaction tx s₁
              = ({ s₁ with
                   clients := mapUpdate s₁.clients d.client
                     (fun c => { c with held := c.held - a,
                                        total := c.total - a,
                                        locked := true }),
                   held_txs := (mapRemove m1 d.id).1 }, POut.ok) := by
            simp [process_transaction, htt, hrm1, hcont1, ham]
          have e2 : process_transaction tx s₂
              = ({ s₂ with
                   clients := mapUpdate s₂.clients d.client
                     (fun c => { c with held := c.held - a,
                                        total := c.total - a,
                                        locked := true }),
                   held_txs := (mapRemove m1 d.id).1 }, POut.ok) := by
            simp [process_transaction, htt, hrm, hcont, ham]
          rw [e1, e2]
          refine ⟨rfl, ?_, hbuf, rfl⟩
          exact ledgerSim_mapUpdate _ _ hled d.client
            (fun c => { c with held := c.held - a,
                               total := c.total - a,
                               locked := true })
            (fun c => { c with held := c.held - a,
                               total := c.total - a,
                               locked := true })
            (fun x y hxy => ⟨hxy.1, hxy.2.1,
              by show x.held - a = y.held - a; rw [hxy.2.2.1],
              by show x.total - a = y.total - a; rw [hxy.2.2.2]⟩)
      · have hcont1 : ¬mapContains s₁.clients d.client = true := by
          rw [hconte]
          exact hcont
        have e1 : process_transaction tx s₁
            = ({ s₁ with held_txs := m1 }, POut.err PErr.unknownAccount) := by
          simp [process_transaction, htt, hrm1, hcont1]
        have e2 : process_transaction tx s₂
            = ({ s₂ with held_txs := m1 }, POut.err PErr.unknownAccount) := by
          simp [process_transaction, htt, hrm, hcont]
        rw [e1, e2]
        exact ⟨rfl, hled, hbuf, rfl⟩

/-- C8 witness: two one-account states differing only in the locked flag get
the same outcome from a deposit and stay identical except for locked flags. -/
theorem locked_flag_noninterference_witness :
    (process_transaction ⟨TransactionType.deposit, 1, 2, some 5⟩
      ⟨[(1, { client := 1, available := 3, held := 0, total := 3,
              locked := false })],
       RingBuffer.with_capacity Transaction 10, []⟩).2
      = (process_transaction ⟨TransactionType.deposit, 1, 2, some 5⟩
      ⟨[(1, { client := 1, available := 3, held := 0, total := 3,
              locked := true })],
       RingBuffer.with_capacity Transaction 10, []⟩).2 ∧
    StateSim
      (process_transaction ⟨TransactionType.deposit, 1, 2, some 5⟩
        ⟨[(1, { client := 1, available := 3, held := 0, total := 3,
                locked := false })],
         RingBuffer.with_capacity Transaction 10, []⟩).1
      (process_transaction ⟨TransactionType.deposit, 1, 2, some 5⟩
        ⟨[(1, { client := 1, available := 3, held := 0, total := 3,
                locked := true })],
         RingBuffer.with_capacity Transaction 10, []⟩).1 :=
  locked_flag_noninterference
    ⟨[(1, { client := 1, available := 3, held := 0, total := 3,
            locked := false })],
     RingBuffer.with_capacity Transaction 10, []⟩
    ⟨[(1, { client := 1, available := 3, held := 0, total := 3,
            locked := true })],
     RingBuffer.with_capacity Transaction 10, []⟩
    ⟨TransactionType.deposit, 1, 2, some 5⟩
    ⟨List.Forall₂.cons ⟨rfl, rfl, rfl, rfl, rfl⟩ List.Forall₂.nil, rfl, rfl⟩
